import Mathlib

/-!
# Endless-runner game loop (`src/game.js`): shallow embedding and verified properties

The JavaScript program keeps all of its state in module-level variables (`Player`,
`gameObjects`, `score`, `gameOver`, `lastSpawnTime`) and talks to the browser through a
2D drawing context, two text elements, `alert` and `requestAnimationFrame`.

Modelling choices

* Coordinates, sizes, velocities, the ability code and the score are JavaScript numbers that
  only ever take integer values far below `2^53`; they are embedded as `Int`.
* Frame timestamps and the results of `Math.random()` are fractional doubles; they are
  embedded as the rationals they denote, and the random draws are explicit parameters of the
  spawner, which rounds as the program does (`roundDouble`).
* Strings (`color`, `type`, canvas fill styles, the ability label) are Lean strings.
* Mutation of module-level variables is explicit state passing on the record `Game`.
  The effects on the host are recorded in the same record: the operations issued on the
  drawing context (`canvas`), the arguments of `alert` (`alerts`), the number of calls of
  `requestAnimationFrame` (`scheduled`) and the contents of the two text elements.
-/

namespace Game1

/-! ## Constants (lines 7-11, 114) -/

def GAME_WIDTH : Int := 800
def GAME_HEIGHT : Int := 600
def FLOOR_Y : Int := 500
def GRAVITY : Int := 1
def OBSTACLE_SPEED : Int := 5
def spawnInterval : ℚ := 2000

/-! ## Drawing context -/

/-- One operation issued on the 2D context. `fillRect` carries the `fillStyle` in force. -/
inductive DrawOp where
  | clearRect (x y w h : Int)
  | fillRect (style : String) (x y w h : Int)
  deriving DecidableEq, Repr

/-! ## Player (lines 18-70) -/

/-- The mutable fields of the `Player` object literal. -/
structure Player where
  x : Int
  y : Int
  width : Int
  height : Int
  xVelocity : Int
  yVelocity : Int
  isJumping : Bool
  ability : Int
  deriving DecidableEq, Repr

/-- Field `shortJumpPower` of the object literal; never assigned. -/
def shortJumpPower : Int := -18
/-- Field `longJumpPower` of the object literal; never assigned. -/
def longJumpPower : Int := -25

/-- The object literal of lines 18-28. -/
def Player.initial : Player :=
  { x := 100, y := FLOOR_Y - 30, width := 30, height := 30, xVelocity := 3,
    yVelocity := 0, isJumping := false, ability := 0 }

/-- Method `Player.draw` (lines 30-34): the single `fillRect` it issues. -/
def Player.draw (p : Player) : DrawOp :=
  DrawOp.fillRect (if p.ability = 1 then "gold" else if p.ability = 2 then "magenta" else "blue")
    p.x p.y p.width p.height

/-- Method `Player.update` (lines 36-55). -/
def Player.update (p : Player) : Player :=
  -- this.x += this.xVelocity; if (this.x < 0) this.x = 0;
  let x1 := p.x + p.xVelocity
  let x2 := if x1 < 0 then 0 else x1
  -- this.yVelocity += GRAVITY; this.y += this.yVelocity;
  let yv := p.yVelocity + GRAVITY
  let y1 := p.y + yv
  if y1 + p.height ≥ FLOOR_Y then
    { p with x := x2, y := FLOOR_Y - p.height, yVelocity := 0, isJumping := false }
  else
    { p with x := x2, y := y1, yVelocity := yv }

/-- Method `Player.jump` (lines 57-69). -/
def Player.jump (p : Player) : Player :=
  if !p.isJumping then
    if p.ability = 1 then
      { p with yVelocity := shortJumpPower, isJumping := true, ability := 0 }
    else if p.ability = 2 then
      { p with yVelocity := longJumpPower, isJumping := true, ability := 0 }
    else p
  else p

/-! ## Game objects (lines 76-102) -/

/-- Instance fields of class `GameObject`. -/
structure GameObject where
  x : Int
  y : Int
  width : Int
  height : Int
  color : String
  type : String
  value : Int
  passed : Bool
  deriving DecidableEq, Repr

/-- The constructor (lines 77-86); `value` defaults to 0 at the call site of the obstacle. -/
def GameObject.new (x y width height : Int) (color type : String) (value : Int) : GameObject :=
  { x := x, y := y, width := width, height := height, color := color, type := type,
    value := value, passed := false }

/-- Method `GameObject.draw` (lines 88-91). -/
def GameObject.draw (o : GameObject) : DrawOp :=
  DrawOp.fillRect o.color o.x o.y o.width o.height

/-- Method `GameObject.update` (lines 93-101): the mutated object and the returned flag. -/
def GameObject.update (o : GameObject) : GameObject × Bool :=
  let o1 := { o with x := o.x - OBSTACLE_SPEED }
  if o1.x + o1.width < 0 then (o1, true) else (o1, false)

/-! ## Collision (lines 105-110) -/

/-- The four properties `checkCollision` reads from either of its arguments. -/
structure Rect where
  x : Int
  y : Int
  width : Int
  height : Int
  deriving DecidableEq, Repr

/-- The rectangle of the player, as `checkCollision` sees it. -/
def Player.rect (p : Player) : Rect :=
  { x := p.x, y := p.y, width := p.width, height := p.height }

/-- The rectangle of a game object, as `checkCollision` sees it. -/
def GameObject.rect (o : GameObject) : Rect :=
  { x := o.x, y := o.y, width := o.width, height := o.height }

/-- Function `checkCollision(player, object)`. -/
def checkCollision (player object : Rect) : Bool :=
  decide (player.x < object.x + object.width) &&
  decide (player.x + player.width > object.x) &&
  decide (player.y < object.y + object.height) &&
  decide (player.y + player.height > object.y)

/-! ## Session state -/

/-- The module-level variables together with the record of the effects on the host.
`gameLoopId` only stores the handle returned by `requestAnimationFrame` and is never read;
the number of such calls is kept in `scheduled`. The text elements hold `none` until the
program first writes them. -/
structure Game where
  player : Player
  gameObjects : List GameObject
  score : Int
  gameOver : Bool
  lastSpawnTime : ℚ
  canvas : List DrawOp
  alerts : List Int
  scheduled : Nat
  scoreDisplay : Option Int
  abilityDisplay : Option String
  deriving DecidableEq

/-- The state when the script has been loaded, before the call `gameLoop(0)` of line 207. -/
def Game.initial : Game :=
  { player := Player.initial, gameObjects := [], score := 0, gameOver := false,
    lastSpawnTime := 0, canvas := [], alerts := [], scheduled := 0,
    scoreDisplay := none, abilityDisplay := none }

/-! ## Double-precision rounding

JavaScript numbers are IEEE 754 binary64 values. The values the program handles are embedded
as the rationals they denote; where the program applies an operation whose result is rounded
and the rounding can be seen (the literal `0.6`, the product `Math.random() * 60`), the
rounding is applied. -/

/-- The integer nearest to `y`, the even one of the two when `y` is half way. -/
def roundTiesEven (y : ℚ) : Int :=
  if y - Int.floor y < 1 / 2 then Int.floor y
  else if 1 / 2 < y - Int.floor y then Int.floor y + 1
  else if Int.floor y % 2 = 0 then Int.floor y else Int.floor y + 1

/-- The spacing of the doubles at a positive `x`: `2^(e - 52)` for `2^e ≤ x < 2^(e+1)`, and
`2^(-1074)` in the subnormal range. -/
def doubleSpacing (x : ℚ) : ℚ :=
  (2 : ℚ) ^ (max (Int.log 2 x) (-1022) - 52)

/-- The double nearest to `x` (round to nearest, ties to even), for `|x| < 2^1024`; larger
magnitudes, which round to an infinity, do not occur in the program. -/
def roundDouble (x : ℚ) : ℚ :=
  if x < 0 then -((roundTiesEven (-x / doubleSpacing (-x)) : ℚ) * doubleSpacing (-x))
  else (roundTiesEven (x / doubleSpacing x) : ℚ) * doubleSpacing x

/-- The rational `x` is the value of a double. -/
def IsDouble (x : ℚ) : Prop :=
  roundDouble x = x

/-! ## Spawner (lines 113-131) -/

/-- Function `spawnObjects(timestamp)`. The two results of `Math.random()` consumed by a
spawning call are the parameters `r1` (line 120) and `r2` (line 121 or line 125). The
literal `0.6` is the double it denotes, `roundDouble 0.6`, and the product `r2 * 60` is
rounded to a double before `Math.floor`. The literals `0.5`, `60`, `40` and `2000` are
doubles as they stand, and comparisons, `Math.floor` and the addition of 40 are exact. The
difference `timestamp - lastSpawnTime` is taken exactly: the program stores 0 or a timestamp
above 2000 in `lastSpawnTime`, and for such operands the comparison of the rounded difference
with 2000 comes out as for the exact one. -/
def spawnObjects (timestamp r1 r2 : ℚ) (g : Game) : Game :=
  if timestamp - g.lastSpawnTime > spawnInterval then
    let g1 := { g with lastSpawnTime := timestamp }
    if r1 < roundDouble 0.6 then
      let width := Int.floor (roundDouble (r2 * 60)) + 40
      let newObstacle := GameObject.new GAME_WIDTH (FLOOR_Y - 30) width 30 "black" "obstacle" 0
      { g1 with gameObjects := g1.gameObjects ++ [newObstacle] }
    else
      let noteType : Int := if r2 < 0.5 then 1 else 2
      let color := if noteType = 1 then "green" else "red"
      let newNote := GameObject.new GAME_WIDTH (FLOOR_Y - 60) 15 25 color "note" noteType
      { g1 with gameObjects := g1.gameObjects ++ [newNote] }
  else g

/-! ## Main loop (lines 134-188) -/

/-- Lines 173-180 for the object `obj` of the current iteration: the scoring test, then
`obj.draw()`. The array holds a reference to `obj` at index `i` when `kept`; when the
object has been spliced out (`kept = false`) the assignment to `passed` is not visible in
the array. -/
def scoreAndDraw (i : Nat) (kept : Bool) (obj : GameObject) (g : Game) : Game :=
  if obj.type = "obstacle" ∧ obj.x + obj.width < g.player.x ∧ obj.passed = false then
    let obj1 := { obj with passed := true }
    { g with score := g.score + 1,
             gameObjects := if kept then g.gameObjects.set i obj1 else g.gameObjects,
             canvas := g.canvas ++ [obj1.draw] }
  else
    { g with gameObjects := if kept then g.gameObjects.set i obj else g.gameObjects,
             canvas := g.canvas ++ [obj.draw] }

/-- One iteration of the `for` loop (lines 153-180) at index `i`. The flag is `true` when
the iteration executed `return` (line 166), so that `gameLoop` is left. An index outside the
array would make `obj.update()` throw; this leaves `gameLoop` too (it never happens, see
`loopBody_index`). -/
def loopBody (i : Nat) (g : Game) : Game × Bool :=
  match g.gameObjects[i]? with
  | none => (g, true)
  | some obj0 =>
    let (obj, remove) := obj0.update
    if remove then
      -- gameObjects.splice(i, 1); continue;
      ({ g with gameObjects := g.gameObjects.eraseIdx i }, false)
    else if checkCollision g.player.rect obj.rect then
      if obj.type = "obstacle" then
        -- gameOver = true; alert(score); return;
        ({ g with gameObjects := g.gameObjects.set i obj, gameOver := true,
                  alerts := g.alerts ++ [g.score] }, true)
      else if obj.type = "note" then
        -- Player.ability = obj.value; gameObjects.splice(i, 1);
        (scoreAndDraw i false obj
          { g with player := { g.player with ability := obj.value },
                   gameObjects := g.gameObjects.eraseIdx i }, false)
      else (scoreAndDraw i true obj g, false)
    else (scoreAndDraw i true obj g, false)

/-- The `for` loop of lines 152-181, entered with `i = n - 1` and running down to `i = 0`. -/
def entityLoop : Nat → Game → Game × Bool
  | 0, g => (g, false)
  | i + 1, g =>
    match loopBody i g with
    | (g1, true) => (g1, true)
    | (g1, false) => entityLoop i g1

/-- The label written to `abilityDisplay` (line 185). -/
def abilityLabel (ability : Int) : String :=
  if ability = 1 then "短跳" else if ability = 2 then "长跳" else "无"

/-- Lines 137-149: clear the surface, draw the floor, update and draw the player, spawn. -/
def frameStart (timestamp r1 r2 : ℚ) (g : Game) : Game :=
  let p := g.player.update
  spawnObjects timestamp r1 r2
    { g with player := p,
             canvas := g.canvas ++ [DrawOp.clearRect 0 0 GAME_WIDTH GAME_HEIGHT,
                                    DrawOp.fillRect "#333" 0 FLOOR_Y GAME_WIDTH 5, p.draw] }

/-- Function `gameLoop(timestamp)` (lines 134-188). -/
def gameLoop (timestamp r1 r2 : ℚ) (g : Game) : Game :=
  if g.gameOver then g
  else
    let g1 := frameStart timestamp r1 r2 g
    match entityLoop g1.gameObjects.length g1 with
    | (g2, true) => g2
    | (g2, false) =>
      { g2 with scoreDisplay := some g2.score,
                abilityDisplay := some (abilityLabel g2.player.ability),
                scheduled := g2.scheduled + 1 }

/-- The `keydown` (Space) and `touchstart` handlers (lines 193-203): `Player.jump()`. -/
def Game.jump (g : Game) : Game :=
  { g with player := g.player.jump }

/-! ## Runs -/

/-- What can happen to a session: the host runs a frame, or the user asks for a jump. -/
inductive Event where
  | frame (timestamp r1 r2 : ℚ)
  | jump
  deriving DecidableEq

/-- The random draws of a frame lie in `[0, 1)`. -/
def Event.valid : Event → Prop
  | Event.frame _ r1 r2 => 0 ≤ r1 ∧ r1 < 1 ∧ 0 ≤ r2 ∧ r2 < 1
  | Event.jump => True

def step (g : Game) : Event → Game
  | Event.frame t r1 r2 => gameLoop t r1 r2 g
  | Event.jump => g.jump

/-- The state after a sequence of events. -/
def run (g : Game) (es : List Event) : Game :=
  es.foldl step g

/-- States the program can be in: those the initial state reaches by valid events. -/
def Reachable (g : Game) : Prop :=
  ∃ es : List Event, (∀ e ∈ es, e.valid) ∧ run Game.initial es = g

/-! ## Specification-side vocabulary -/

/-- The point `(px, py)` lies strictly inside the rectangle `r`. -/
def Rect.interior (r : Rect) (px py : ℚ) : Prop :=
  (r.x : ℚ) < px ∧ px < (r.x : ℚ) + r.width ∧ (r.y : ℚ) < py ∧ py < (r.y : ℚ) + r.height

/-- The iteration for `o` ends the game: `o` stays on screen, collides with the player
rectangle `r` after its update and is an obstacle (lines 156, 162-163). -/
def hitsObstacle (r : Rect) (o : GameObject) : Bool :=
  !o.update.2 && checkCollision r o.update.1.rect && decide (o.update.1.type = "obstacle")

/-- The iteration for `o` consumes it as a note: `o` stays on screen, collides with the
player rectangle `r` after its update, and is a note (lines 156, 162, 167). -/
def takesNote (r : Rect) (o : GameObject) : Bool :=
  !o.update.2 && checkCollision r o.update.1.rect && decide (o.update.1.type ≠ "obstacle") &&
    decide (o.update.1.type = "note")

/-- The scoring test of line 175 succeeds for `o` after its update. -/
def scoresNow (r : Rect) (o : GameObject) : Bool :=
  !o.update.2 && decide (o.update.1.type = "obstacle") &&
    decide (o.update.1.x + o.update.1.width < r.x) && !o.update.1.passed

/-- The object as an iteration that keeps it leaves it in the array. -/
def settled (r : Rect) (o : GameObject) : GameObject :=
  if scoresNow r o then { o.update.1 with passed := true } else o.update.1

/-- What remains in the array of an object processed by an iteration that does not end the
game: nothing when it left the screen or was consumed, else the object as settled. -/
def keptAs (r : Rect) (o : GameObject) : Option GameObject :=
  if o.update.2 || takesNote r o then none else some (settled r o)

/-- The objects of `xs` that remain after iterations that do not end the game, in order. -/
def survivors (r : Rect) (xs : List GameObject) : List GameObject :=
  xs.filterMap (keptAs r)

/-- The number of objects of `xs` scored by their iteration. -/
def gained (r : Rect) (xs : List GameObject) : Int :=
  ((xs.filter (scoresNow r)).length : Int)

/-- The ability held after the iterations for `xs` (highest index first), starting with `a`:
the value of the lowest-index note taken, if any. -/
def abilityAfter (r : Rect) (a : Int) (xs : List GameObject) : Int :=
  match xs.find? (takesNote r) with
  | some e => e.update.1.value
  | none => a

/-- The draw operations issued by the iterations for `xs`, highest index first: one for
each object that did not leave the screen. -/
def drawnOps (xs : List GameObject) : List DrawOp :=
  (xs.reverse.filter (fun o => !o.update.2)).map (fun o => o.update.1.draw)


/-- The `passed` flag of `o` turns from false to true in its iteration: `o` is not passed,
it stays in the array, and it is passed as left there. -/
def flagTurns (r : Rect) (o : GameObject) : Bool :=
  !o.passed && (match keptAs r o with
    | some o' => o'.passed
    | none => false)

/-- A running state, never spawned in, whose player does not move left and in which every
entry of the array is passed and lies behind the player. -/
def AllBehind (g : Game) : Prop :=
  g.gameOver = false ∧ g.lastSpawnTime = 0 ∧ 0 ≤ g.player.xVelocity ∧ 0 ≤ g.player.x ∧
    ∀ o ∈ g.gameObjects, o.passed = true ∧ o.x + o.width < g.player.x

/-! ## Example states -/

/-- An obstacle as the spawner builds it, placed at `x`. -/
def obstacleAt (x width : Int) : GameObject :=
  GameObject.new x (FLOOR_Y - 30) width 30 "black" "obstacle" 0

/-- A note at `x` low enough to meet a player standing on the floor. -/
def lowNoteAt (x value : Int) : GameObject :=
  GameObject.new x (FLOOR_Y - 30) 15 25 (if value = 1 then "green" else "red") "note" value

/-- The initial state with three obstacles in the array: one far ahead, one about to meet
the player, one already behind the player. -/
def collisionExample : Game :=
  { Game.initial with gameObjects := [obstacleAt 300 50, obstacleAt 130 50, obstacleAt 40 50] }

/-- The initial state with two low notes that both meet the player, and a far obstacle. -/
def noteExample : Game :=
  { Game.initial with
    gameObjects := [lowNoteAt 120 2, lowNoteAt 125 1, obstacleAt 300 50] }

/-- The initial state with one obstacle that is not passed and lies behind the player. -/
def scoreExample : Game :=
  { Game.initial with gameObjects := [obstacleAt 70 20] }

/-- The object after `n` consecutive calls of `update`. -/
def GameObject.afterUpdates (n : Nat) (o : GameObject) : GameObject :=
  (fun e : GameObject => e.update.1)^[n] o

/-- The flag returned by call number `n + 1` of `update` on `o`, the calls being counted
from 1. -/
def GameObject.callAfter (n : Nat) (o : GameObject) : Bool :=
  (o.afterUpdates n).update.2

/-- Specification side of the refinement: the loop over the entities read as a function of
the sequence. Every entity is updated once; the entities whose update signals removal and
the notes that collide with the player are filtered out; the others stay, in their order,
as their iteration leaves them. -/
def filteredSequence (r : Rect) (xs : List GameObject) : List GameObject :=
  (xs.filter (fun e => !(e.update.2 || takesNote r e))).map (settled r)

/-- An entity has the shape the spawner gives a note: type `note`, y = 440, height 25. -/
def NoteShape (o : GameObject) : Prop :=
  o.type = "note" ∧ o.y = 440 ∧ o.height = 25

/-- The player stands on the floor, not jumping and without an ability, and every entity of
the array is an obstacle or has the shape of a spawned note. -/
def Grounded (g : Game) : Prop :=
  g.player.y = 470 ∧ g.player.height = 30 ∧ g.player.yVelocity = 0 ∧
    g.player.isJumping = false ∧ g.player.ability = 0 ∧
    ∀ o ∈ g.gameObjects, o.type = "obstacle" ∨ NoteShape o

/-- An entity has the shape the spawner gives an obstacle: on the floor, height 30, width at
least 40. -/
def ObstacleShape (o : GameObject) : Prop :=
  o.y = 470 ∧ o.height = 30 ∧ 40 ≤ o.width

/-- The player runs on the floor at speed 3 from x = 100 on, and as long as the player has
not passed x = 800 the score is 0 and, while the game runs, every obstacle of the array has
the spawned shape and lies in front of the player. -/
def Ahead (g : Game) : Prop :=
  Grounded g ∧ g.player.width = 30 ∧ g.player.xVelocity = 3 ∧ 100 ≤ g.player.x ∧
    (g.player.x ≤ 800 → g.score = 0 ∧ (g.gameOver = false →
      ∀ o ∈ g.gameObjects, o.type = "obstacle" → ObstacleShape o ∧ g.player.x + 30 ≤ o.x))

/-- The player after `k` consecutive calls of `Player.update`. -/
def Player.afterUpdates (k : Nat) (p : Player) : Player :=
  Player.update^[k] p

/-- The part of the player state that the vertical motion reads and writes. -/
def Player.vertical (p : Player) : Int × Int × Int × Bool :=
  (p.y, p.yVelocity, p.height, p.isJumping)

/-- The start of a short jump: the initial player holding ability 1. -/
def shortJumpStart : Player :=
  { Player.initial with ability := 1 }


/-! # Verified properties -/

/-! ## Collision test -/

theorem checkCollision_iff (a b : Rect) :
    checkCollision a b = true ↔
      a.x < b.x + b.width ∧ a.x + a.width > b.x ∧ a.y < b.y + b.height ∧ a.y + a.height > b.y := by
  simp [checkCollision, and_assoc]

/-- Two open intervals with integer end points that overlap share a rational point. -/
theorem exists_between_of_overlap (l1 w1 l2 w2 : Int) (h1 : l1 < l2 + w2) (h2 : l1 + w1 > l2)
    (hw1 : 0 < w1) (hw2 : 0 < w2) :
    ∃ q : ℚ, (l1 : ℚ) < q ∧ q < (l1 : ℚ) + w1 ∧ (l2 : ℚ) < q ∧ q < (l2 : ℚ) + w2 := by
  have e1 : ((l1 + w1 : Int) : ℚ) = (l1 : ℚ) + w1 := by push_cast; ring
  have e2 : ((l2 + w2 : Int) : ℚ) = (l2 : ℚ) + w2 := by push_cast; ring
  have a1 : (l1 : ℚ) < (l1 + w1 : Int) := by exact_mod_cast (by omega : l1 < l1 + w1)
  have a2 : (l2 : ℚ) < (l2 + w2 : Int) := by exact_mod_cast (by omega : l2 < l2 + w2)
  have a3 : (l1 : ℚ) < (l2 + w2 : Int) := by exact_mod_cast h1
  have a4 : (l2 : ℚ) < (l1 + w1 : Int) := by exact_mod_cast h2
  rw [e1] at a1 a4
  rw [e2] at a2 a3
  refine ⟨(max (l1 : ℚ) l2 + min ((l1 : ℚ) + w1) ((l2 : ℚ) + w2)) / 2, ?_, ?_, ?_, ?_⟩
  all_goals
    rcases max_cases (l1 : ℚ) (l2 : ℚ) with ⟨hm, _⟩ | ⟨hm, _⟩ <;>
    rcases min_cases ((l1 : ℚ) + w1) ((l2 : ℚ) + w2) with ⟨hn, _⟩ | ⟨hn, _⟩ <;>
    rw [hm, hn] <;> linarith

/-- C1. For rectangles of positive width and height, `checkCollision a b` is true exactly when
the four strict inequalities of the overlap test hold, which is exactly when the interiors of
the two rectangles share a point; rectangles that only touch along an edge or at a corner
(one ends where the other starts, on either axis) do not collide. -/
theorem checkCollision_iff_interiors_meet (a b : Rect)
    (ha : 0 < a.width ∧ 0 < a.height) (hb : 0 < b.width ∧ 0 < b.height) :
    (checkCollision a b = true ↔
      a.x < b.x + b.width ∧ a.x + a.width > b.x ∧ a.y < b.y + b.height ∧ a.y + a.height > b.y) ∧
    (checkCollision a b = true ↔ ∃ px py : ℚ, a.interior px py ∧ b.interior px py) ∧
    (a.x + a.width = b.x ∨ b.x + b.width = a.x ∨ a.y + a.height = b.y ∨ b.y + b.height = a.y →
      checkCollision a b = false) := by
  refine ⟨checkCollision_iff a b, ?_, ?_⟩
  · rw [checkCollision_iff]
    constructor
    · rintro ⟨h1, h2, h3, h4⟩
      obtain ⟨px, p1, p2, p3, p4⟩ := exists_between_of_overlap a.x a.width b.x b.width h1 h2 ha.1 hb.1
      obtain ⟨py, q1, q2, q3, q4⟩ :=
        exists_between_of_overlap a.y a.height b.y b.height h3 h4 ha.2 hb.2
      exact ⟨px, py, ⟨p1, p2, q1, q2⟩, ⟨p3, p4, q3, q4⟩⟩
    · rintro ⟨px, py, ⟨p1, p2, q1, q2⟩, ⟨p3, p4, q3, q4⟩⟩
      have c1 : (a.x : ℚ) < ((b.x + b.width : Int) : ℚ) := by push_cast; linarith
      have c2 : (b.x : ℚ) < ((a.x + a.width : Int) : ℚ) := by push_cast; linarith
      have c3 : (a.y : ℚ) < ((b.y + b.height : Int) : ℚ) := by push_cast; linarith
      have c4 : (b.y : ℚ) < ((a.y + a.height : Int) : ℚ) := by push_cast; linarith
      exact ⟨by exact_mod_cast c1, by exact_mod_cast c2, by exact_mod_cast c3,
        by exact_mod_cast c4⟩
  · intro h
    rw [← Bool.not_eq_true, checkCollision_iff]
    omega

theorem checkCollision_iff_interiors_meet_witness :
    (checkCollision ⟨100, 470, 30, 30⟩ ⟨130, 470, 50, 30⟩ = false) ∧
    (checkCollision ⟨100, 470, 30, 30⟩ ⟨129, 470, 50, 30⟩ = true ↔
      ∃ px py : ℚ, Rect.interior ⟨100, 470, 30, 30⟩ px py ∧ Rect.interior ⟨129, 470, 50, 30⟩ px py) :=
  ⟨(checkCollision_iff_interiors_meet ⟨100, 470, 30, 30⟩ ⟨130, 470, 50, 30⟩
      ⟨by decide, by decide⟩ ⟨by decide, by decide⟩).2.2 (Or.inl (by decide)),
   (checkCollision_iff_interiors_meet ⟨100, 470, 30, 30⟩ ⟨129, 470, 50, 30⟩
      ⟨by decide, by decide⟩ ⟨by decide, by decide⟩).2.1⟩

/-! ## Player.jump -/

/-- C2. For every player state (in particular those whose ability is 0, 1 or 2): `jump`
changes nothing when the ability is 0 or the player is already jumping; otherwise it sets
`yVelocity` to -18 (ability 1) or -25 (ability 2), sets `isJumping`, resets the ability to 0
and leaves x, y, width, height and xVelocity alone. -/
theorem jump_spec (p : Player) :
    (p.ability = 0 ∨ p.isJumping = true → p.jump = p) ∧
    (p.isJumping = false → p.ability = 1 →
      p.jump = { x := p.x, y := p.y, width := p.width, height := p.height,
                 xVelocity := p.xVelocity, yVelocity := -18, isJumping := true,
                 ability := 0 }) ∧
    (p.isJumping = false → p.ability = 2 →
      p.jump = { x := p.x, y := p.y, width := p.width, height := p.height,
                 xVelocity := p.xVelocity, yVelocity := -25, isJumping := true,
                 ability := 0 }) := by
  refine ⟨?_, ?_, ?_⟩
  · rintro (h0 | hj)
    · simp [Player.jump, h0]
    · simp [Player.jump, hj]
  · intro hj h1
    simp [Player.jump, hj, h1, shortJumpPower]
  · intro hj h2
    simp [Player.jump, hj, h2, longJumpPower]

theorem jump_spec_witness :
    (Player.jump ⟨100, 470, 30, 30, 3, 0, false, 2⟩ = ⟨100, 470, 30, 30, 3, -25, true, 0⟩) :=
  (jump_spec ⟨100, 470, 30, 30, 3, 0, false, 2⟩).2.2 rfl rfl

/-- C3. `jump` is idempotent on every player state; from y = 470, ability 1, not jumping, the
first call gives `yVelocity = -18`, `isJumping = true`, `ability = 0` and the second call
changes nothing. -/
theorem jump_idempotent :
    (∀ p : Player, p.jump.jump = p.jump) ∧
    Player.jump ⟨100, 470, 30, 30, 3, 0, false, 1⟩ = ⟨100, 470, 30, 30, 3, -18, true, 0⟩ ∧
    Player.jump ⟨100, 470, 30, 30, 3, -18, true, 0⟩ = ⟨100, 470, 30, 30, 3, -18, true, 0⟩ := by
  refine ⟨?_, by decide, by decide⟩
  intro p
  rcases p with ⟨x, y, w, h, xv, yv, j, a⟩
  cases j
  · by_cases h1 : a = 1
    · simp [Player.jump, h1]
    · by_cases h2 : a = 2
      · simp [Player.jump, h2]
      · simp [Player.jump, h1, h2]
  · simp [Player.jump]


/-! ## List facts used for the array operations -/

theorem getElem?_length_append (pre : List GameObject) (o : GameObject) (post : List GameObject) :
    (pre ++ o :: post)[pre.length]? = some o := by
  induction pre with
  | nil => simp
  | cons a l ih => simpa using ih

theorem eraseIdx_length_append (pre : List GameObject) (o : GameObject) (post : List GameObject) :
    (pre ++ o :: post).eraseIdx pre.length = pre ++ post := by
  induction pre with
  | nil => simp
  | cons a l ih => simpa using ih

theorem set_length_append (pre : List GameObject) (o o' : GameObject) (post : List GameObject) :
    (pre ++ o :: post).set pre.length o' = pre ++ o' :: post := by
  induction pre with
  | nil => simp
  | cons a l ih => simp [ih]

theorem toList_eq_filterMap_singleton (f : GameObject → Option GameObject) (e : GameObject) :
    (f e).toList = List.filterMap f [e] := by
  cases h : f e <;> simp [List.filterMap_cons, h]

/-! ## One iteration of the entity loop -/

theorem update_fst (o : GameObject) :
    o.update.1 = { o with x := o.x - OBSTACLE_SPEED } := by
  unfold GameObject.update
  simp only []
  split_ifs <;> rfl

theorem update_snd (o : GameObject) :
    o.update.2 = decide (o.x - OBSTACLE_SPEED + o.width < 0) := by
  unfold GameObject.update
  simp only []
  split_ifs with h <;> simp [h]

/-- The iteration at the index of `o` in `pre ++ o :: post`, by cases on what `o` does. -/
theorem loopBody_at (g : Game) (pre post : List GameObject) (o : GameObject)
    (h : g.gameObjects = pre ++ o :: post) :
    loopBody pre.length g =
      if o.update.2 then ({ g with gameObjects := pre ++ post }, false)
      else if hitsObstacle g.player.rect o then
        ({ g with gameObjects := pre ++ o.update.1 :: post, gameOver := true,
                  alerts := g.alerts ++ [g.score] }, true)
      else if takesNote g.player.rect o then
        ({ g with player := { g.player with ability := o.update.1.value },
                  gameObjects := pre ++ post,
                  canvas := g.canvas ++ [o.update.1.draw] }, false)
      else
        ({ g with gameObjects := pre ++ settled g.player.rect o :: post,
                  score := g.score + (if scoresNow g.player.rect o then 1 else 0),
                  canvas := g.canvas ++ [o.update.1.draw] }, false) := by
  have hr : g.player.rect.x = g.player.x := rfl
  unfold loopBody
  rw [h, getElem?_length_append]
  rcases hu : o.update with ⟨u, rem⟩
  simp only [hitsObstacle, takesNote, settled, scoresNow, hu, hr]
  cases rem
  · simp only [Bool.false_eq_true, if_false, Bool.not_false, Bool.true_and]
    by_cases hc : checkCollision g.player.rect u.rect = true
    · by_cases hob : u.type = "obstacle"
      · simp [hc, hob, set_length_append]
      · by_cases hn : u.type = "note"
        · simp [hc, hob, hn, scoreAndDraw, eraseIdx_length_append]
        · simp [hc, hob, hn, scoreAndDraw, set_length_append, h]
    · simp only [hc, Bool.false_and, Bool.false_eq_true, if_false]
      unfold scoreAndDraw
      by_cases hs : u.type = "obstacle" ∧ u.x + u.width < g.player.x ∧ u.passed = false
      · rw [if_pos hs]
        simp [hs.1, hs.2.1, hs.2.2, h, set_length_append, GameObject.draw]
      · rw [if_neg hs]
        have hs2 : ¬ ((decide (u.type = "obstacle") && decide (u.x + u.width < g.player.x) &&
            !u.passed) = true) := by
          simpa [and_assoc] using hs
        simp [hs2, h, set_length_append]
  · simp [eraseIdx_length_append]


theorem scoresNow_false_of_takesNote (r : Rect) (o : GameObject) (h : takesNote r o = true) :
    scoresNow r o = false := by
  simp only [takesNote, Bool.and_eq_true, decide_eq_true_eq] at h
  simp [scoresNow, h.1.2]

theorem scoresNow_false_of_offScreen (r : Rect) (o : GameObject) (h : o.update.2 = true) :
    scoresNow r o = false := by
  simp [scoresNow, h]

theorem takesNote_false_of_offScreen (r : Rect) (o : GameObject) (h : o.update.2 = true) :
    takesNote r o = false := by
  simp [takesNote, h]

/-- An iteration that does not end the game, in one formula. -/
theorem loopBody_noHit (g : Game) (pre post : List GameObject) (o : GameObject)
    (h : g.gameObjects = pre ++ o :: post) (hno : hitsObstacle g.player.rect o = false) :
    loopBody pre.length g =
      ({ g with
          player := { g.player with
            ability := if takesNote g.player.rect o then o.update.1.value else g.player.ability },
          gameObjects := pre ++ ((keptAs g.player.rect o).toList ++ post),
          score := g.score + (if scoresNow g.player.rect o then 1 else 0),
          canvas := g.canvas ++ (if o.update.2 then [] else [o.update.1.draw]) }, false) := by
  rw [loopBody_at g pre post o h]
  by_cases hoff : o.update.2 = true
  · simp [hoff, keptAs, scoresNow_false_of_offScreen, takesNote_false_of_offScreen]
  · by_cases hn : takesNote g.player.rect o = true
    · simp [hoff, hno, hn, keptAs, scoresNow_false_of_takesNote]
    · simp [hoff, hno, hn, keptAs]


theorem split_at_index (l : List GameObject) (i : Nat) (h : i < l.length) :
    l = l.take i ++ l[i] :: l.drop (i + 1) ∧ (l.take i).length = i := by
  constructor
  · rw [← List.drop_eq_getElem_cons h, List.take_append_drop]
  · rw [List.length_take]
    omega

/-- The loop never indexes outside the array: the iteration at a valid index `i` returns
or leaves at least `i` entries, so that the next index `i - 1` is valid again. -/
theorem loopBody_index (i : Nat) (g : Game) (h : i < g.gameObjects.length) :
    g.gameObjects[i]? ≠ none ∧ i ≤ (loopBody i g).1.gameObjects.length := by
  constructor
  · simp [h]
  · obtain ⟨hsplit, hlen⟩ := split_at_index g.gameObjects i h
    have hb := loopBody_at g _ _ _ hsplit
    rw [hlen] at hb
    rw [hb]
    split_ifs <;> simp [hlen]

/-! ## A run of iterations that do not end the game -/

theorem abilityAfter_append_singleton (r : Rect) (a : Int) (ys : List GameObject)
    (e : GameObject) :
    abilityAfter r a (ys ++ [e]) =
      abilityAfter r (if takesNote r e then e.update.1.value else a) ys := by
  unfold abilityAfter
  rw [List.find?_append]
  cases hf : ys.find? (takesNote r) with
  | some x => simp
  | none =>
    by_cases hn : takesNote r e = true
    · simp [hn]
    · simp [hn]

theorem survivors_append (r : Rect) (xs ys : List GameObject) :
    survivors r (xs ++ ys) = survivors r xs ++ survivors r ys := by
  simp [survivors, List.filterMap_append]

theorem gained_append_singleton (r : Rect) (ys : List GameObject) (e : GameObject) :
    gained r (ys ++ [e]) = gained r ys + (if scoresNow r e then 1 else 0) := by
  unfold gained
  by_cases hs : scoresNow r e = true
  · simp [List.filter_append, hs]
  · simp [List.filter_append, hs]

theorem drawnOps_append_singleton (ys : List GameObject) (e : GameObject) :
    drawnOps (ys ++ [e]) = (if e.update.2 then [] else [e.update.1.draw]) ++ drawnOps ys := by
  unfold drawnOps
  by_cases hs : e.update.2 = true
  · simp [List.filter_cons, hs]
  · simp [List.filter_cons, hs]

/-- The iterations for a segment `xs` of the array in which no object ends the game:
they leave the survivors of `xs` in place, add the gained points, set the ability and
issue the draw operations, and the loop goes on below the segment. -/
theorem entityLoop_segment (xs : List GameObject) :
    ∀ (g : Game) (pre post : List GameObject), g.gameObjects = pre ++ (xs ++ post) →
      (∀ e ∈ xs, hitsObstacle g.player.rect e = false) →
      entityLoop (pre.length + xs.length) g =
        entityLoop pre.length
          { g with
            player := { g.player with
              ability := abilityAfter g.player.rect g.player.ability xs },
            gameObjects := pre ++ (survivors g.player.rect xs ++ post),
            score := g.score + gained g.player.rect xs,
            canvas := g.canvas ++ drawnOps xs } := by
  induction xs using List.reverseRecOn with
  | nil =>
    intro g pre post h _
    rcases g with ⟨p, objs, sc, go, ls, cv, al, sch, sd, ad⟩
    simp only [List.nil_append] at h
    subst h
    simp [abilityAfter, survivors, gained, drawnOps]
  | append_singleton ys e ih =>
    intro g pre post h hno
    have hlen : pre.length + (ys ++ [e]).length = (pre ++ ys).length + 1 := by
      simp [Nat.add_assoc]
    have h' : g.gameObjects = (pre ++ ys) ++ e :: post := by simp [h]
    have hne : hitsObstacle g.player.rect e = false := hno e (by simp)
    rw [hlen, entityLoop, loopBody_noHit g (pre ++ ys) post e h' hne]
    simp only []
    rw [List.length_append]
    refine (ih _ pre ((keptAs g.player.rect e).toList ++ post) (by simp) ?_).trans ?_
    · intro x hx
      exact hno x (by simp [hx])
    · congr 1
      simp only [Player.rect, abilityAfter_append_singleton, survivors_append,
        gained_append_singleton, drawnOps_append_singleton]
      simp only [survivors, Int.add_assoc, List.append_assoc, Game.mk.injEq, true_and, and_true,
        List.append_cancel_left_eq, List.append_cancel_right_eq]
      exact ⟨toList_eq_filterMap_singleton _ e, by ring⟩


/-- Either no object of `xs` ends the game, or there is a last one that does. -/
theorem noHit_or_lastHit (r : Rect) (xs : List GameObject) :
    (∀ e ∈ xs, hitsObstacle r e = false) ∨
    ∃ pre o post, xs = pre ++ o :: post ∧ hitsObstacle r o = true ∧
      ∀ e ∈ post, hitsObstacle r e = false := by
  induction xs with
  | nil => left; simp
  | cons a l ih =>
    rcases ih with hno | ⟨pre, o, post, hl, ho, hpost⟩
    · by_cases ha : hitsObstacle r a = true
      · exact Or.inr ⟨[], a, l, rfl, ha, hno⟩
      · left
        intro e he
        rcases List.mem_cons.1 he with rfl | he
        · simpa using ha
        · exact hno e he
    · exact Or.inr ⟨a :: pre, o, post, by simp [hl], ho, hpost⟩

/-- The whole loop when no object ends the game. -/
theorem entityLoop_noHit (g : Game) (hno : ∀ e ∈ g.gameObjects, hitsObstacle g.player.rect e = false) :
    entityLoop g.gameObjects.length g =
      ({ g with
          player := { g.player with
            ability := abilityAfter g.player.rect g.player.ability g.gameObjects },
          gameObjects := survivors g.player.rect g.gameObjects,
          score := g.score + gained g.player.rect g.gameObjects,
          canvas := g.canvas ++ drawnOps g.gameObjects }, false) := by
  have h := entityLoop_segment g.gameObjects g [] [] (by simp) hno
  simp only [List.length_nil, Nat.zero_add, List.append_nil, List.nil_append] at h
  rw [h, entityLoop]

/-- The whole loop when `o` is the first object processed that ends the game. -/
theorem entityLoop_hit (g : Game) (pre post : List GameObject) (o : GameObject)
    (h : g.gameObjects = pre ++ o :: post) (ho : hitsObstacle g.player.rect o = true)
    (hno : ∀ e ∈ post, hitsObstacle g.player.rect e = false) :
    entityLoop g.gameObjects.length g =
      ({ g with
          player := { g.player with ability := abilityAfter g.player.rect g.player.ability post },
          gameObjects := pre ++ o.update.1 :: survivors g.player.rect post,
          score := g.score + gained g.player.rect post,
          gameOver := true,
          alerts := g.alerts ++ [g.score + gained g.player.rect post],
          canvas := g.canvas ++ drawnOps post }, true) := by
  have hlen : g.gameObjects.length = (pre ++ [o]).length + post.length := by
    simp [h]; omega
  have hseg := entityLoop_segment post g (pre ++ [o]) [] (by simp [h]) hno
  rw [hlen, hseg]
  have hoff : o.update.2 = false := by
    simp only [hitsObstacle, Bool.and_eq_true, Bool.not_eq_true'] at ho
    exact ho.1.1
  simp only [List.length_append, List.length_singleton, entityLoop, List.append_nil]
  rw [loopBody_at _ pre (survivors g.player.rect post) o (by simp)]
  simp [hoff, Player.rect] at ho ⊢
  simp [Player.rect, ho]


/-! ## The spawner and the start of a frame -/

/-- The spawner touches the timestamp of the last spawn and the array, nothing else. -/
theorem spawnObjects_frame (t r1 r2 : ℚ) (g : Game) :
    spawnObjects t r1 r2 g =
      { g with lastSpawnTime := (spawnObjects t r1 r2 g).lastSpawnTime,
               gameObjects := (spawnObjects t r1 r2 g).gameObjects } := by
  unfold spawnObjects
  split_ifs <;> rfl

theorem frameStart_player (t r1 r2 : ℚ) (g : Game) :
    (frameStart t r1 r2 g).player = g.player.update := by
  unfold frameStart; rw [spawnObjects_frame]

theorem frameStart_score (t r1 r2 : ℚ) (g : Game) : (frameStart t r1 r2 g).score = g.score := by
  unfold frameStart; rw [spawnObjects_frame]

theorem frameStart_gameOver (t r1 r2 : ℚ) (g : Game) :
    (frameStart t r1 r2 g).gameOver = g.gameOver := by
  unfold frameStart; rw [spawnObjects_frame]

theorem frameStart_alerts (t r1 r2 : ℚ) (g : Game) :
    (frameStart t r1 r2 g).alerts = g.alerts := by
  unfold frameStart; rw [spawnObjects_frame]

theorem frameStart_scheduled (t r1 r2 : ℚ) (g : Game) :
    (frameStart t r1 r2 g).scheduled = g.scheduled := by
  unfold frameStart; rw [spawnObjects_frame]

theorem frameStart_canvas (t r1 r2 : ℚ) (g : Game) :
    (frameStart t r1 r2 g).canvas =
      g.canvas ++ [DrawOp.clearRect 0 0 GAME_WIDTH GAME_HEIGHT,
                   DrawOp.fillRect "#333" 0 FLOOR_Y GAME_WIDTH 5, g.player.update.draw] := by
  unfold frameStart; rw [spawnObjects_frame]

/-! ## A whole frame -/

/-- A frame from a running state in which no object ends the game. -/
theorem gameLoop_noHit (t r1 r2 : ℚ) (g : Game) (hrun : g.gameOver = false)
    (hno : ∀ e ∈ (frameStart t r1 r2 g).gameObjects,
      hitsObstacle (frameStart t r1 r2 g).player.rect e = false) :
    gameLoop t r1 r2 g =
      { frameStart t r1 r2 g with
        player := { (frameStart t r1 r2 g).player with
          ability := abilityAfter (frameStart t r1 r2 g).player.rect
            (frameStart t r1 r2 g).player.ability (frameStart t r1 r2 g).gameObjects },
        gameObjects := survivors (frameStart t r1 r2 g).player.rect (frameStart t r1 r2 g).gameObjects,
        score := g.score + gained (frameStart t r1 r2 g).player.rect (frameStart t r1 r2 g).gameObjects,
        canvas := (frameStart t r1 r2 g).canvas ++ drawnOps (frameStart t r1 r2 g).gameObjects,
        scoreDisplay := some
          (g.score + gained (frameStart t r1 r2 g).player.rect (frameStart t r1 r2 g).gameObjects),
        abilityDisplay := some (abilityLabel (abilityAfter (frameStart t r1 r2 g).player.rect
            (frameStart t r1 r2 g).player.ability (frameStart t r1 r2 g).gameObjects)),
        scheduled := g.scheduled + 1 } := by
  unfold gameLoop
  rw [if_neg (by simp [hrun])]
  simp only []
  rw [entityLoop_noHit _ hno]
  simp [frameStart_score, frameStart_scheduled]

/-- A frame from a running state in which `o` is the first object processed that ends the
game. -/
theorem gameLoop_hit (t r1 r2 : ℚ) (g : Game) (hrun : g.gameOver = false)
    (pre post : List GameObject) (o : GameObject)
    (h : (frameStart t r1 r2 g).gameObjects = pre ++ o :: post)
    (ho : hitsObstacle (frameStart t r1 r2 g).player.rect o = true)
    (hno : ∀ e ∈ post, hitsObstacle (frameStart t r1 r2 g).player.rect e = false) :
    gameLoop t r1 r2 g =
      { frameStart t r1 r2 g with
        player := { (frameStart t r1 r2 g).player with
          ability := abilityAfter (frameStart t r1 r2 g).player.rect
            (frameStart t r1 r2 g).player.ability post },
        gameObjects := pre ++ o.update.1 :: survivors (frameStart t r1 r2 g).player.rect post,
        score := g.score + gained (frameStart t r1 r2 g).player.rect post,
        gameOver := true,
        alerts := g.alerts ++ [g.score + gained (frameStart t r1 r2 g).player.rect post],
        canvas := (frameStart t r1 r2 g).canvas ++ drawnOps post } := by
  unfold gameLoop
  rw [if_neg (by simp [hrun])]
  simp only []
  rw [entityLoop_hit _ pre post o h ho hno]
  simp [frameStart_score, frameStart_alerts]


/-- A frame from a running state moves the player by `Player.update`; the entity loop can
only change the ability. -/
theorem gameLoop_player (t r1 r2 : ℚ) (g : Game) (hrun : g.gameOver = false) :
    (gameLoop t r1 r2 g).player =
      { g.player.update with ability := (gameLoop t r1 r2 g).player.ability } := by
  rcases noHit_or_lastHit (frameStart t r1 r2 g).player.rect (frameStart t r1 r2 g).gameObjects
    with hno | ⟨pre, o, post, h, ho, hno⟩
  · rw [gameLoop_noHit t r1 r2 g hrun hno]
    simp [frameStart_player]
  · rw [gameLoop_hit t r1 r2 g hrun pre post o h ho hno]
    simp [frameStart_player]

theorem gameLoop_of_gameOver (t r1 r2 : ℚ) (g : Game) (h : g.gameOver = true) :
    gameLoop t r1 r2 g = g := by
  unfold gameLoop
  rw [if_pos h]

/-! ## Runs and reachable states -/

theorem run_append_singleton (g : Game) (es : List Event) (e : Event) :
    run g (es ++ [e]) = step (run g es) e := by
  simp [run, List.foldl_append]

/-- Induction over the reachable states. -/
theorem reachable_induction (P : Game → Prop) (h0 : P Game.initial)
    (hstep : ∀ g e, Event.valid e → P g → P (step g e)) : ∀ g, Reachable g → P g := by
  rintro g ⟨es, hval, rfl⟩
  induction es using List.reverseRecOn with
  | nil => exact h0
  | append_singleton es e ih =>
    rw [run_append_singleton]
    exact hstep _ e (hval e (by simp)) (ih (fun x hx => hval x (by simp [hx])))

/-! ## Player.update -/

theorem update_floor (p : Player) :
    p.update.y + p.update.height ≤ FLOOR_Y ∧ 0 ≤ p.update.x ∧ p.update.height = p.height := by
  unfold Player.update
  simp only []
  split_ifs <;> simp <;> omega

theorem jump_position (p : Player) :
    p.jump.x = p.x ∧ p.jump.y = p.y ∧ p.jump.width = p.width ∧ p.jump.height = p.height := by
  unfold Player.jump
  split_ifs <;> simp

/-- C4. Floor invariant. After `Player.update`, from any player state, `y + height` is at
most 500 and `x` is at least 0; when the position integrated under gravity reaches or
passes the floor (`y + yVelocity + 1 + height ≥ 500`) the result has `y = 500 - height`,
`yVelocity = 0` and `isJumping = false`. `jump` does not change `y` or `height`, and
`y + height ≤ 500` holds in every reachable state. -/
theorem floor_invariant :
    (∀ p : Player, p.update.y + p.update.height ≤ 500 ∧ 0 ≤ p.update.x ∧
      (p.y + p.yVelocity + 1 + p.height ≥ 500 →
        p.update.y = 500 - p.height ∧ p.update.height = p.height ∧
        p.update.yVelocity = 0 ∧ p.update.isJumping = false)) ∧
    (∀ p : Player, p.jump.y = p.y ∧ p.jump.height = p.height) ∧
    (∀ g : Game, Reachable g → g.player.y + g.player.height ≤ 500) := by
  refine ⟨?_, ?_, ?_⟩
  · intro p
    refine ⟨(update_floor p).1, (update_floor p).2.1, ?_⟩
    intro h
    unfold Player.update
    simp only [GRAVITY, FLOOR_Y]
    rw [if_pos (by omega)]
    simp
  · intro p
    exact ⟨(jump_position p).2.1, (jump_position p).2.2.2⟩
  · apply reachable_induction
    · decide
    · intro g e _ hg
      cases e with
      | frame t r1 r2 =>
        simp only [step]
        cases hgo : g.gameOver
        · rw [gameLoop_player t r1 r2 g hgo]
          exact (update_floor g.player).1
        · rw [gameLoop_of_gameOver t r1 r2 g hgo]
          exact hg
      | jump =>
        simp only [step, Game.jump]
        rw [(jump_position g.player).2.1, (jump_position g.player).2.2.2]
        exact hg



/-! ## Double-precision rounding -/

theorem roundTiesEven_bounds (y : ℚ) :
    y - 1 / 2 ≤ (roundTiesEven y : ℚ) ∧ (roundTiesEven y : ℚ) ≤ y + 1 / 2 := by
  have h1 := Int.floor_le y
  have h2 := Int.lt_floor_add_one y
  unfold roundTiesEven
  split_ifs with ha hb hc
  · constructor <;> linarith
  · constructor <;> push_cast <;> linarith
  · constructor <;> linarith
  · constructor <;> push_cast <;> linarith

theorem roundTiesEven_nonneg (y : ℚ) (hy : 0 ≤ y) : 0 ≤ roundTiesEven y := by
  have h0 : 0 ≤ Int.floor y := Int.floor_nonneg.2 hy
  unfold roundTiesEven
  split_ifs <;> omega

theorem roundTiesEven_intCast (n : Int) : roundTiesEven (n : ℚ) = n := by
  unfold roundTiesEven
  rw [Int.floor_intCast]
  simp

theorem doubleSpacing_pos (x : ℚ) : 0 < doubleSpacing x := by
  unfold doubleSpacing
  positivity

/-- Below 64 the doubles are at most `2^(-47)` apart. -/
theorem doubleSpacing_le (x : ℚ) (hx : x < 64) : doubleSpacing x ≤ (2 : ℚ) ^ (-47 : Int) := by
  unfold doubleSpacing
  apply zpow_le_zpow_right₀ (by norm_num)
  have hlog : Int.log 2 x ≤ 5 := by
    rcases le_or_lt x 0 with h0 | h0
    · rw [Int.log_of_right_le_zero 2 h0]
      decide
    · have : Int.log 2 x < 6 := by
        rw [← Int.lt_zpow_iff_log_lt (by decide) h0]
        norm_num
        exact hx
      omega
  have : max (Int.log 2 x) (-1022) ≤ 5 := max_le hlog (by decide)
  omega

theorem roundDouble_of_nonneg (x : ℚ) (hx : 0 ≤ x) :
    roundDouble x = (roundTiesEven (x / doubleSpacing x) : ℚ) * doubleSpacing x := by
  unfold roundDouble
  rw [if_neg (not_lt.2 hx)]

theorem roundDouble_nonneg (x : ℚ) (hx : 0 ≤ x) : 0 ≤ roundDouble x := by
  rw [roundDouble_of_nonneg x hx]
  have hs := doubleSpacing_pos x
  have : 0 ≤ roundTiesEven (x / doubleSpacing x) :=
    roundTiesEven_nonneg _ (div_nonneg hx hs.le)
  have : (0 : ℚ) ≤ (roundTiesEven (x / doubleSpacing x) : ℚ) := by exact_mod_cast this
  positivity

/-- Rounding moves a value by at most half the spacing. -/
theorem roundDouble_near (x : ℚ) (hx : 0 ≤ x) :
    x - doubleSpacing x / 2 ≤ roundDouble x ∧ roundDouble x ≤ x + doubleSpacing x / 2 := by
  rw [roundDouble_of_nonneg x hx]
  have hs := doubleSpacing_pos x
  obtain ⟨h1, h2⟩ := roundTiesEven_bounds (x / doubleSpacing x)
  have e : x / doubleSpacing x * doubleSpacing x = x := div_mul_cancel₀ x hs.ne'
  constructor
  · have := mul_le_mul_of_nonneg_right h1 hs.le
    rw [sub_mul, e] at this
    linarith
  · have := mul_le_mul_of_nonneg_right h2 hs.le
    rw [add_mul, e] at this
    linarith

/-- A value that is a whole number of spacings is a double. -/
theorem roundDouble_exact (x : ℚ) (hx : 0 ≤ x) (n : Int)
    (h : x / doubleSpacing x = (n : ℚ)) : roundDouble x = x := by
  rw [roundDouble_of_nonneg x hx, h, roundTiesEven_intCast, ← h]
  exact div_mul_cancel₀ x (doubleSpacing_pos x).ne'

/-- A value `n / 2^k` below `2^(B+1)` with `k ≤ 52 - B` is a double: it is a whole number of
spacings. -/
theorem isDouble_of_dyadic (n k : Nat) (B : Int) (hB : -1022 ≤ B) (hk : (k : Int) ≤ 52 - B)
    (hlt : (n : ℚ) / 2 ^ k < (2 : ℚ) ^ (B + 1)) : IsDouble ((n : ℚ) / 2 ^ k) := by
  unfold IsDouble
  have hx : (0 : ℚ) ≤ (n : ℚ) / 2 ^ k := by positivity
  rcases Nat.eq_zero_or_pos n with hn | hn
  · subst hn
    apply roundDouble_exact _ hx 0
    simp
  have hpos : (0 : ℚ) < (n : ℚ) / 2 ^ k := by
    have : (0 : ℚ) < n := by exact_mod_cast hn
    positivity
  have hlog : Int.log 2 ((n : ℚ) / 2 ^ k) ≤ B := by
    have : Int.log 2 ((n : ℚ) / 2 ^ k) < B + 1 := by
      rw [← Int.lt_zpow_iff_log_lt (by decide) hpos]
      exact_mod_cast hlt
    omega
  have hm : max (Int.log 2 ((n : ℚ) / 2 ^ k)) (-1022) ≤ B := max_le hlog hB
  set m := max (Int.log 2 ((n : ℚ) / 2 ^ k)) (-1022) with hmdef
  have hnn : 0 ≤ 52 - m - k := by omega
  apply roundDouble_exact _ hx ((n : Int) * 2 ^ (52 - m - k).toNat)
  unfold doubleSpacing
  rw [← hmdef]
  have hpow : ((2 : ℚ) ^ (52 - m - k).toNat) = (2 : ℚ) ^ (52 - m - (k : Int)) := by
    rw [← zpow_natCast, Int.toNat_of_nonneg hnn]
  push_cast
  rw [hpow, div_div, ← zpow_natCast (2 : ℚ) k, ← zpow_add₀ (by norm_num : (2 : ℚ) ≠ 0),
    div_eq_mul_inv, ← zpow_neg]
  congr 2
  omega

/-- The largest double below 1 is `1 - 2^(-53)`. -/
theorem isDouble_lt_one (r : ℚ) (hd : IsDouble r) (h0 : 0 ≤ r) (h1 : r < 1) :
    r ≤ 1 - 1 / 2 ^ 53 := by
  by_contra hgt
  have hgt : 1 - 1 / 2 ^ 53 < r := not_le.1 hgt
  have hpos : 0 < r := by
    have : (0 : ℚ) < 1 - 1 / 2 ^ 53 := by norm_num
    linarith
  have hlog : Int.log 2 r = -1 := by
    have hlo : (-1 : Int) ≤ Int.log 2 r := by
      rw [← Int.zpow_le_iff_le_log (by decide) hpos]
      norm_num
      have : (1 : ℚ) / 2 ≤ 1 - 1 / 2 ^ 53 := by norm_num
      linarith
    have hhi : Int.log 2 r < 0 := by
      rw [← Int.lt_zpow_iff_log_lt (by decide) hpos]
      norm_num
      exact h1
    omega
  have hsp : doubleSpacing r = 1 / 2 ^ 53 := by
    unfold doubleSpacing
    rw [hlog]
    norm_num
  unfold IsDouble at hd
  rw [roundDouble_of_nonneg r h0, hsp] at hd
  have hy : (roundTiesEven (r / (1 / 2 ^ 53)) : ℚ) = r * 2 ^ 53 := by
    have h2 : (0 : ℚ) < 2 ^ 53 := by positivity
    field_simp at hd ⊢
    linarith
  have hlow : ((2 ^ 53 - 1 : Int) : ℚ) < (roundTiesEven (r / (1 / 2 ^ 53)) : ℚ) := by
    rw [hy]
    have : (1 - 1 / 2 ^ 53 : ℚ) * 2 ^ 53 < r * 2 ^ 53 :=
      mul_lt_mul_of_pos_right hgt (by positivity)
    norm_num at this ⊢
    linarith
  have hhigh : (roundTiesEven (r / (1 / 2 ^ 53)) : ℚ) < ((2 ^ 53 : Int) : ℚ) := by
    rw [hy]
    have : r * 2 ^ 53 < 1 * 2 ^ 53 := mul_lt_mul_of_pos_right h1 (by positivity)
    norm_num at this ⊢
    linarith
  have a := Int.cast_lt.1 hlow
  have b := Int.cast_lt.1 hhigh
  omega

/-- The literal `0.6` denotes the double `5404319552844595 / 2^53`, which is below 3/5. -/
theorem roundDouble_literal_06 :
    roundDouble 0.6 = 5404319552844595 / 2 ^ 53 ∧ roundDouble 0.6 < 3 / 5 := by
  have hlog : Int.log 2 (0.6 : ℚ) = -1 := by
    have hpos : (0 : ℚ) < 0.6 := by norm_num
    have hlo : (-1 : Int) ≤ Int.log 2 (0.6 : ℚ) := by
      rw [← Int.zpow_le_iff_le_log (by decide) hpos]
      norm_num
    have hhi : Int.log 2 (0.6 : ℚ) < 0 := by
      rw [← Int.lt_zpow_iff_log_lt (by decide) hpos]
      norm_num
    omega
  have hsp : doubleSpacing (0.6 : ℚ) = 1 / 2 ^ 53 := by
    unfold doubleSpacing
    rw [hlog]
    norm_num
  have hfl : Int.floor ((0.6 : ℚ) / (1 / 2 ^ 53)) = 5404319552844595 := by
    rw [Int.floor_eq_iff]
    norm_num
  have hr : roundTiesEven ((0.6 : ℚ) / (1 / 2 ^ 53)) = 5404319552844595 := by
    unfold roundTiesEven
    rw [hfl, if_pos (by norm_num)]
  have hval : roundDouble 0.6 = 5404319552844595 / 2 ^ 53 := by
    rw [roundDouble_of_nonneg _ (by norm_num), hsp, hr]
    norm_num
  exact ⟨hval, by rw [hval]; norm_num⟩

/-- The product of a double in `[0, 1)` by 60, as rounded, lies in `[0, 60)`. -/
theorem roundDouble_mul_sixty (r2 : ℚ) (hd : IsDouble r2) (h0 : 0 ≤ r2) (h1 : r2 < 1) :
    0 ≤ Int.floor (roundDouble (r2 * 60)) ∧ Int.floor (roundDouble (r2 * 60)) ≤ 59 := by
  have hx : (0 : ℚ) ≤ r2 * 60 := by positivity
  constructor
  · exact Int.floor_nonneg.2 (roundDouble_nonneg _ hx)
  · have hle := isDouble_lt_one r2 hd h0 h1
    have hlt : r2 * 60 < 64 := by linarith
    have hsp := doubleSpacing_le _ hlt
    have hnear := (roundDouble_near _ hx).2
    have h47 : (2 : ℚ) ^ (-47 : Int) = 1 / 2 ^ 47 := by norm_num
    rw [h47] at hsp
    have hlt60 : roundDouble (r2 * 60) < 60 := by
      have e1 : (1 - 1 / 2 ^ 53 : ℚ) * 60 + 1 / 2 ^ 47 / 2 < 60 := by norm_num
      have e2 : r2 * 60 ≤ (1 - 1 / 2 ^ 53 : ℚ) * 60 := by linarith
      linarith
    have : Int.floor (roundDouble (r2 * 60)) < 60 := Int.floor_lt.2 (by exact_mod_cast hlt60)
    omega

theorem floor_roundDouble_mul_sixty_nonneg (r2 : ℚ) (h0 : 0 ≤ r2) :
    0 ≤ Int.floor (roundDouble (r2 * 60)) :=
  Int.floor_nonneg.2 (roundDouble_nonneg _ (by positivity))

theorem every_width_index (k : Nat) (hk : k < 60) : ∃ j : Nat, j < 128 ∧ 15 * j / 32 = k :=
  ⟨(32 * k + 14) / 15, by omega, by omega⟩

/-- Every integer from 0 to 59 is the floor of the rounded product of some double in
`[0, 1)` by 60. -/
theorem floor_roundDouble_mul_sixty_attained (k : Int) (h0 : 0 ≤ k) (h1 : k ≤ 59) :
    ∃ r : ℚ, IsDouble r ∧ 0 ≤ r ∧ r < 1 ∧ Int.floor (roundDouble (r * 60)) = k := by
  obtain ⟨j, hj, hk⟩ := every_width_index k.toNat (by omega)
  have hjq : (j : ℚ) < 128 := by exact_mod_cast hj
  refine ⟨(j : ℚ) / 2 ^ 7, ?_, by positivity, ?_, ?_⟩
  · apply isDouble_of_dyadic j 7 (-1) (by decide) (by decide)
    rw [div_lt_iff₀ (by positivity)]
    norm_num
    exact hj
  · rw [div_lt_one (by positivity)]
    norm_num
    exact hj
  · have hprod : (j : ℚ) / 2 ^ 7 * 60 = ((15 * j : Nat) : ℚ) / 2 ^ 5 := by
      push_cast
      ring
    have hd : IsDouble (((15 * j : Nat) : ℚ) / 2 ^ 5) := by
      apply isDouble_of_dyadic (15 * j) 5 5 (by decide) (by decide)
      rw [div_lt_iff₀ (by positivity)]
      push_cast
      norm_num
      linarith
    rw [hprod, hd]
    have h32 : ((2 : ℚ) ^ 5) = ((32 : Nat) : ℚ) := by norm_num
    rw [h32, Rat.floor_natCast_div_natCast]
    omega

/-- The double nearest to 59/60 lies below 59/60, so the exact product by 60 is below 59, but
the product as the program computes it rounds up to 59. -/
theorem roundDouble_product_rounds_up :
    IsDouble (8857079267161975 / 2 ^ 53) ∧
    Int.floor ((8857079267161975 / 2 ^ 53 : ℚ) * 60) = 58 ∧
    Int.floor (roundDouble ((8857079267161975 / 2 ^ 53 : ℚ) * 60)) = 59 := by
  have hd : IsDouble (8857079267161975 / 2 ^ 53) := by
    have := isDouble_of_dyadic 8857079267161975 53 (-1) (by decide) (by decide) (by norm_num)
    exact_mod_cast this
  refine ⟨hd, ?_, ?_⟩
  · rw [Int.floor_eq_iff]
    norm_num
  · have hpos : (0 : ℚ) < (8857079267161975 / 2 ^ 53 : ℚ) * 60 := by norm_num
    have hlog : Int.log 2 ((8857079267161975 / 2 ^ 53 : ℚ) * 60) = 5 := by
      have hlo : (5 : Int) ≤ Int.log 2 ((8857079267161975 / 2 ^ 53 : ℚ) * 60) := by
        rw [← Int.zpow_le_iff_le_log (by decide) hpos]
        norm_num
      have hhi : Int.log 2 ((8857079267161975 / 2 ^ 53 : ℚ) * 60) < 6 := by
        rw [← Int.lt_zpow_iff_log_lt (by decide) hpos]
        norm_num
      omega
    have hsp : doubleSpacing ((8857079267161975 / 2 ^ 53 : ℚ) * 60) = 1 / 2 ^ 47 := by
      unfold doubleSpacing
      rw [hlog]
      norm_num
    have hfl : Int.floor ((8857079267161975 / 2 ^ 53 : ℚ) * 60 / (1 / 2 ^ 47)) =
        8303511812964351 := by
      rw [Int.floor_eq_iff]
      norm_num
    have hr : roundTiesEven ((8857079267161975 / 2 ^ 53 : ℚ) * 60 / (1 / 2 ^ 47)) =
        8303511812964352 := by
      unfold roundTiesEven
      rw [hfl, if_neg (by norm_num), if_pos (by norm_num)]
      rfl
    rw [roundDouble_of_nonneg _ hpos.le, hsp, hr, Int.floor_eq_iff]
    norm_num

/-! ## spawnObjects -/

theorem spawnObjects_of_not_elapsed (t r1 r2 : ℚ) (g : Game)
    (h : ¬ (t - g.lastSpawnTime > 2000)) : spawnObjects t r1 r2 g = g := by
  unfold spawnObjects
  rw [if_neg (by simpa [spawnInterval] using h)]

/-- C8 (as stated, refuted). When exactly one interval has elapsed (`t - lastSpawnTime = 2000`)
the call creates nothing and leaves `lastSpawnTime` at its old value. -/
theorem spawnObjects_exact_interval_no_spawn :
    (2000 : ℚ) - Game.initial.lastSpawnTime ≥ 2000 ∧
    (spawnObjects 2000 0 0 Game.initial).gameObjects = Game.initial.gameObjects ∧
    (spawnObjects 2000 0 0 Game.initial).lastSpawnTime = 0 ∧
    (spawnObjects 2000 0 0 Game.initial).lastSpawnTime ≠ 2000 := by
  norm_num [spawnObjects, Game.initial, spawnInterval]

/-- C8 (amended). `spawnObjects t` creates exactly one new entity, appended to the array,
and sets `lastSpawnTime` to `t` when strictly more than one interval has elapsed
(`t - lastSpawnTime > 2000`); otherwise it leaves the whole state unchanged. -/
theorem spawnObjects_gate (t r1 r2 : ℚ) (g : Game) :
    (t - g.lastSpawnTime > 2000 →
      (∃ e, (spawnObjects t r1 r2 g).gameObjects = g.gameObjects ++ [e]) ∧
      (spawnObjects t r1 r2 g).lastSpawnTime = t) ∧
    (¬ (t - g.lastSpawnTime > 2000) → spawnObjects t r1 r2 g = g) := by
  constructor
  · intro h
    unfold spawnObjects
    rw [if_pos (by simpa [spawnInterval] using h)]
    by_cases h1 : r1 < roundDouble 0.6
    · rw [if_pos h1]
      exact ⟨⟨_, rfl⟩, rfl⟩
    · rw [if_neg h1]
      exact ⟨⟨_, rfl⟩, rfl⟩
  · exact spawnObjects_of_not_elapsed t r1 r2 g

theorem spawnObjects_gate_witness :
    ((∃ e, (spawnObjects 2001 0 0 Game.initial).gameObjects = Game.initial.gameObjects ++ [e]) ∧
      (spawnObjects 2001 0 0 Game.initial).lastSpawnTime = 2001) ∧
    spawnObjects 2000 0 0 Game.initial = Game.initial :=
  ⟨(spawnObjects_gate 2001 0 0 Game.initial).1 (by norm_num [Game.initial]),
   (spawnObjects_gate 2000 0 0 Game.initial).2 (by norm_num [Game.initial])⟩

/-- C9. A spawning call (the draws `r1`, `r2` doubles in `[0,1)`, more than one interval
elapsed) appends exactly one entity at the end of the array, at x = 800 and not passed. For
`r1 < 0.6`, the literal being the double `5404319552844595 / 2^53`, it is an obstacle of
value 0, height 30, y = 470 (bottom edge on the floor line) and width `floor(r2*60)+40`,
the product rounded as the program computes it, an integer in `[40,99]`; otherwise it is a
15x25 note at y = 440, of value 1 and colour green when `r2 < 0.5`, of value 2 and colour
red otherwise. Every width in `[40,99]` is produced by some double `r2` in `[0,1)`, and no
call, spawning or not, appends more than one entity. -/
theorem spawnObjects_entity (t r1 r2 : ℚ) (g : Game) (_hr1 : 0 ≤ r1 ∧ r1 < 1)
    (hr2 : 0 ≤ r2 ∧ r2 < 1) (hd2 : IsDouble r2) (hspawn : t - g.lastSpawnTime > 2000) :
    roundDouble 0.6 = 5404319552844595 / 2 ^ 53 ∧
    (r1 < roundDouble 0.6 →
      (spawnObjects t r1 r2 g).gameObjects = g.gameObjects ++
        [{ x := 800, y := 470, width := Int.floor (roundDouble (r2 * 60)) + 40, height := 30,
           color := "black", type := "obstacle", value := 0, passed := false }] ∧
      40 ≤ Int.floor (roundDouble (r2 * 60)) + 40 ∧
      Int.floor (roundDouble (r2 * 60)) + 40 ≤ 99 ∧ (470 : Int) + 30 = FLOOR_Y) ∧
    (¬ r1 < roundDouble 0.6 →
      (spawnObjects t r1 r2 g).gameObjects = g.gameObjects ++
        [{ x := 800, y := 440, width := 15, height := 25,
           color := if r2 < 0.5 then "green" else "red",
           type := "note", value := if r2 < 0.5 then 1 else 2, passed := false }]) ∧
    (∀ k : Int, 40 ≤ k → k ≤ 99 → ∃ r : ℚ, IsDouble r ∧ 0 ≤ r ∧ r < 1 ∧
      (spawnObjects t 0 r g).gameObjects = g.gameObjects ++
        [{ x := 800, y := 470, width := k, height := 30, color := "black",
           type := "obstacle", value := 0, passed := false }]) ∧
    (∀ (t' r1' r2' : ℚ) (g' : Game), ∃ l, (spawnObjects t' r1' r2' g').gameObjects = g'.gameObjects ++ l ∧
      l.length ≤ 1) := by
  have hgate : t - g.lastSpawnTime > spawnInterval := by simpa [spawnInterval] using hspawn
  refine ⟨roundDouble_literal_06.1, ?_, ?_, ?_, ?_⟩
  · intro h
    have hw := roundDouble_mul_sixty r2 hd2 hr2.1 hr2.2
    refine ⟨?_, by omega, by omega, by decide⟩
    unfold spawnObjects
    rw [if_pos hgate, if_pos h]
    rfl
  · intro h
    unfold spawnObjects
    rw [if_pos hgate, if_neg h]
    by_cases h2 : r2 < 0.5
    · simp [h2, GameObject.new, GAME_WIDTH, FLOOR_Y]
    · simp [h2, GameObject.new, GAME_WIDTH, FLOOR_Y]
  · intro k hk1 hk2
    obtain ⟨r, hd, h0, h1, hfl⟩ := floor_roundDouble_mul_sixty_attained (k - 40) (by omega)
      (by omega)
    refine ⟨r, hd, h0, h1, ?_⟩
    have hzero : (0 : ℚ) < roundDouble 0.6 := by
      rw [roundDouble_literal_06.1]
      norm_num
    unfold spawnObjects
    rw [if_pos hgate, if_pos hzero]
    simp [hfl, GameObject.new, GAME_WIDTH, FLOOR_Y]
  · intro t' r1' r2' g'
    unfold spawnObjects
    by_cases hg : t' - g'.lastSpawnTime > spawnInterval
    · rw [if_pos hg]
      by_cases h1 : r1' < roundDouble 0.6
      · rw [if_pos h1]
        exact ⟨_, rfl, by simp⟩
      · rw [if_neg h1]
        exact ⟨_, rfl, by simp⟩
    · rw [if_neg hg]
      exact ⟨[], by simp, by simp⟩

theorem spawnObjects_entity_witness :
    (spawnObjects 2001 (5404319552844595 / 2 ^ 53) (8857079267161975 / 2 ^ 53)
        Game.initial).gameObjects = Game.initial.gameObjects ++
      [{ x := 800, y := 440, width := 15, height := 25,
         color := if (8857079267161975 / 2 ^ 53 : ℚ) < 0.5 then "green" else "red",
         type := "note",
         value := if (8857079267161975 / 2 ^ 53 : ℚ) < 0.5 then 1 else 2, passed := false }] :=
  (spawnObjects_entity 2001 (5404319552844595 / 2 ^ 53) (8857079267161975 / 2 ^ 53) Game.initial
    (by norm_num) (by norm_num) roundDouble_product_rounds_up.1
    (by norm_num [Game.initial])).2.2.1 (by rw [roundDouble_literal_06.1]; norm_num)

/-- At the draws `r1 = 1/2` and `r2 = 8857079267161975 / 2^53`, the double nearest to 59/60,
the spawned obstacle has width 99: the product by 60 rounds up to 59, although the exact
product is below 59. -/
theorem spawnObjects_width_at_rounded_product :
    (spawnObjects 2001 (1 / 2) (8857079267161975 / 2 ^ 53) Game.initial).gameObjects =
      [{ x := 800, y := 470, width := 99, height := 30, color := "black",
         type := "obstacle", value := 0, passed := false }] := by
  have hhalf : (1 / 2 : ℚ) < roundDouble 0.6 := by
    rw [roundDouble_literal_06.1]
    norm_num
  unfold spawnObjects
  rw [if_pos (by norm_num [Game.initial, spawnInterval]), if_pos hhalf]
  simp [roundDouble_product_rounds_up.2.2, GameObject.new, GAME_WIDTH, FLOOR_Y, Game.initial]

/-! ## Game over -/

theorem run_of_gameOver (es : List Event) :
    ∀ g : Game, g.gameOver = true → (run g es).gameOver = true := by
  induction es with
  | nil => intro g h; exact h
  | cons e es ih =>
    intro g h
    simp only [run, List.foldl_cons]
    apply ih
    cases e with
    | frame t r1 r2 => simp only [step]; rw [gameLoop_of_gameOver t r1 r2 g h]; exact h
    | jump => exact h

/-- C10. GAME_OVER is terminal. In a state with `gameOver = true`, `gameLoop` returns the
state as it is, for every timestamp: score, player, array, `lastSpawnTime` and `gameOver`
are unchanged, no alert is emitted, nothing is drawn and no frame is scheduled. No operation
sets `gameOver` back to false: not `gameLoop`, not `spawnObjects`, not the jump handler, and
so no sequence of frames and jumps; `Player.update` and `Player.jump` act on the player
record alone. -/
theorem gameOver_terminal (g : Game) (h : g.gameOver = true) :
    (∀ t r1 r2 : ℚ, gameLoop t r1 r2 g = g) ∧
    (∀ t r1 r2 : ℚ, (gameLoop t r1 r2 g).score = g.score ∧ (gameLoop t r1 r2 g).player = g.player ∧
      (gameLoop t r1 r2 g).gameObjects = g.gameObjects ∧
      (gameLoop t r1 r2 g).lastSpawnTime = g.lastSpawnTime ∧
      (gameLoop t r1 r2 g).gameOver = true ∧ (gameLoop t r1 r2 g).alerts = g.alerts ∧
      (gameLoop t r1 r2 g).canvas = g.canvas ∧ (gameLoop t r1 r2 g).scheduled = g.scheduled) ∧
    (∀ t r1 r2 : ℚ, (spawnObjects t r1 r2 g).gameOver = true) ∧
    g.jump.gameOver = true ∧
    ({ g with player := g.player.update }).gameOver = true ∧
    (∀ es : List Event, (run g es).gameOver = true) := by
  refine ⟨fun t r1 r2 => gameLoop_of_gameOver t r1 r2 g h, ?_, ?_, h, h,
    fun es => run_of_gameOver es g h⟩
  · intro t r1 r2
    rw [gameLoop_of_gameOver t r1 r2 g h]
    exact ⟨rfl, rfl, rfl, rfl, h, rfl, rfl, rfl⟩
  · intro t r1 r2
    rw [spawnObjects_frame]
    exact h

theorem gameOver_terminal_witness :
    gameLoop 2500 (1 / 2) (1 / 2) { Game.initial with gameOver := true } =
      { Game.initial with gameOver := true } :=
  (gameOver_terminal { Game.initial with gameOver := true } rfl).1 2500 (1 / 2) (1 / 2)


/-! ## Collisions inside a frame -/

theorem update_type (o : GameObject) : o.update.1.type = o.type := by
  rw [update_fst]

/-- An object that collides with a rectangle whose left edge is not negative has not left
the screen. -/
theorem onScreen_of_collision (r : Rect) (o : GameObject) (hr : 0 ≤ r.x)
    (hc : checkCollision r o.update.1.rect = true) : o.update.2 = false := by
  rw [checkCollision_iff] at hc
  rw [update_snd]
  rw [update_fst] at hc
  simp only [GameObject.rect] at hc
  simp only [decide_eq_false_iff_not]
  omega

theorem hitsObstacle_iff (r : Rect) (o : GameObject) (hr : 0 ≤ r.x) :
    hitsObstacle r o = true ↔
      checkCollision r o.update.1.rect = true ∧ o.type = "obstacle" := by
  unfold hitsObstacle
  rw [update_type]
  constructor
  · intro h
    simp only [Bool.and_eq_true, decide_eq_true_eq] at h
    exact ⟨h.1.2, h.2⟩
  · rintro ⟨hc, ht⟩
    simp [onScreen_of_collision r o hr hc, hc, ht]

theorem takesNote_iff (r : Rect) (o : GameObject) (hr : 0 ≤ r.x) :
    takesNote r o = true ↔ checkCollision r o.update.1.rect = true ∧ o.type = "note" := by
  unfold takesNote
  rw [update_type]
  constructor
  · intro h
    simp only [Bool.and_eq_true, decide_eq_true_eq] at h
    exact ⟨h.1.1.2, h.2⟩
  · rintro ⟨hc, ht⟩
    simp [onScreen_of_collision r o hr hc, hc, ht]

theorem frameStart_rect_x (t r1 r2 : ℚ) (g : Game) : 0 ≤ (frameStart t r1 r2 g).player.rect.x := by
  rw [frameStart_player]
  exact (update_floor g.player).2.1

theorem noHit_of_noCollision (r : Rect) (hr : 0 ≤ r.x) (xs : List GameObject)
    (h : ∀ e ∈ xs, e.type = "obstacle" → checkCollision r e.update.1.rect = false) :
    ∀ e ∈ xs, hitsObstacle r e = false := by
  intro e he
  rw [← Bool.not_eq_true, hitsObstacle_iff r e hr]
  rintro ⟨hc, ht⟩
  rw [h e he ht] at hc
  exact Bool.noConfusion hc

/-- A frame without a spawn: the array is the one of the state before. -/
theorem frameStart_gameObjects_of_not_elapsed (t r1 r2 : ℚ) (g : Game)
    (h : ¬ (t - g.lastSpawnTime > 2000)) :
    (frameStart t r1 r2 g).gameObjects = g.gameObjects := by
  have hs := spawnObjects_of_not_elapsed t r1 r2
    { g with player := g.player.update,
             canvas := g.canvas ++ [DrawOp.clearRect 0 0 GAME_WIDTH GAME_HEIGHT,
               DrawOp.fillRect "#333" 0 FLOOR_Y GAME_WIDTH 5, g.player.update.draw] } h
  unfold frameStart
  simp only []
  rw [hs]

/-- C5. In a frame run from a running state, let the array after spawning be
`pre ++ o :: post`, where no obstacle of `post` (the entities processed before `o`) collides
with the player, so that the loop reaches `o`. If `o` is an obstacle that collides with the
player after its update, then `gameOver` becomes true; exactly one alert is emitted, carrying
the score at that moment, which is the score before the frame plus the points gained on
`post`; no frame is scheduled and the text elements are not refreshed; the entities `pre` at
lower indices are left in the array exactly as they were, followed by `o` as updated and the
survivors of `post`; and the only entity draws are those made for `post`. -/
theorem obstacle_collision_ends_frame (t r1 r2 : ℚ) (g : Game) (pre post : List GameObject)
    (o : GameObject) (hrun : g.gameOver = false)
    (h : (frameStart t r1 r2 g).gameObjects = pre ++ o :: post)
    (hreach : ∀ e ∈ post, e.type = "obstacle" →
      checkCollision g.player.update.rect e.update.1.rect = false)
    (htype : o.type = "obstacle")
    (hcol : checkCollision g.player.update.rect o.update.1.rect = true) :
    (gameLoop t r1 r2 g).gameOver = true ∧
    (gameLoop t r1 r2 g).alerts = g.alerts ++ [(gameLoop t r1 r2 g).score] ∧
    (gameLoop t r1 r2 g).score = g.score + gained g.player.update.rect post ∧
    (gameLoop t r1 r2 g).scheduled = g.scheduled ∧
    (gameLoop t r1 r2 g).scoreDisplay = g.scoreDisplay ∧
    (gameLoop t r1 r2 g).abilityDisplay = g.abilityDisplay ∧
    (gameLoop t r1 r2 g).gameObjects =
      pre ++ o.update.1 :: survivors g.player.update.rect post ∧
    (gameLoop t r1 r2 g).canvas =
      g.canvas ++ [DrawOp.clearRect 0 0 GAME_WIDTH GAME_HEIGHT,
                   DrawOp.fillRect "#333" 0 FLOOR_Y GAME_WIDTH 5, g.player.update.draw] ++
        drawnOps post := by
  have hx := frameStart_rect_x t r1 r2 g
  have hp := frameStart_player t r1 r2 g
  rw [← hp] at hreach hcol
  have hno := noHit_of_noCollision _ hx post hreach
  have ho := (hitsObstacle_iff _ o hx).2 ⟨hcol, htype⟩
  rw [gameLoop_hit t r1 r2 g hrun pre post o h ho hno]
  simp only [frameStart_canvas, frameStart_scheduled, hp, true_and, and_true]
  constructor
  · unfold frameStart; rw [spawnObjects_frame]
  · unfold frameStart; rw [spawnObjects_frame]


theorem obstacle_collision_ends_frame_witness :
    (gameLoop 0 0 0 collisionExample).gameOver = true ∧
    (gameLoop 0 0 0 collisionExample).alerts =
      collisionExample.alerts ++ [(gameLoop 0 0 0 collisionExample).score] ∧
    (gameLoop 0 0 0 collisionExample).score =
      collisionExample.score + gained collisionExample.player.update.rect [obstacleAt 40 50] ∧
    (gameLoop 0 0 0 collisionExample).scheduled = collisionExample.scheduled ∧
    (gameLoop 0 0 0 collisionExample).scoreDisplay = collisionExample.scoreDisplay ∧
    (gameLoop 0 0 0 collisionExample).abilityDisplay = collisionExample.abilityDisplay ∧
    (gameLoop 0 0 0 collisionExample).gameObjects =
      [obstacleAt 300 50] ++ (obstacleAt 130 50).update.1 ::
        survivors collisionExample.player.update.rect [obstacleAt 40 50] ∧
    (gameLoop 0 0 0 collisionExample).canvas =
      collisionExample.canvas ++ [DrawOp.clearRect 0 0 GAME_WIDTH GAME_HEIGHT,
        DrawOp.fillRect "#333" 0 FLOOR_Y GAME_WIDTH 5, collisionExample.player.update.draw] ++
        drawnOps [obstacleAt 40 50] :=
  obstacle_collision_ends_frame 0 0 0 collisionExample [obstacleAt 300 50] [obstacleAt 40 50]
    (obstacleAt 130 50) rfl
    (by rw [frameStart_gameObjects_of_not_elapsed _ _ _ _ (by norm_num [collisionExample, Game.initial])]
        rfl)
    (by decide) rfl (by decide)



/-! ## Notes -/

theorem survivors_length_le (r : Rect) (xs : List GameObject) :
    (survivors r xs).length ≤ xs.length :=
  List.length_filterMap_le _ _

theorem settled_cases (r : Rect) (b : GameObject) :
    settled r b = b.update.1 ∨ settled r b = { b.update.1 with passed := true } := by
  unfold settled
  split_ifs
  · exact Or.inr rfl
  · exact Or.inl rfl

theorem mem_survivors (r : Rect) (xs : List GameObject) (a : GameObject)
    (h : a ∈ survivors r xs) : ∃ b ∈ xs, keptAs r b = some a ∧ a = settled r b := by
  unfold survivors at h
  rw [List.mem_filterMap] at h
  obtain ⟨b, hb, hk⟩ := h
  refine ⟨b, hb, hk, ?_⟩
  unfold keptAs at hk
  split_ifs at hk
  exact (Option.some.inj hk).symm

theorem abilityAfter_of_taken (r : Rect) (a : Int) (pre post : List GameObject) (e : GameObject)
    (hpre : ∀ b ∈ pre, takesNote r b = false) (he : takesNote r e = true) :
    abilityAfter r a (pre ++ e :: post) = e.update.1.value := by
  unfold abilityAfter
  have hnone : pre.find? (takesNote r) = none := by
    rw [List.find?_eq_none]
    intro b hb
    simp [hpre b hb]
  rw [List.find?_append, hnone]
  simp [List.find?_cons, he]

theorem update_value (o : GameObject) : o.update.1.value = o.value := by
  rw [update_fst]

/-- C7. In a frame run from a running state, let the array after spawning be
`pre ++ e :: post`, where no obstacle of `post` collides with the player, so that the loop
reaches `e` and updates it. If `e` is a note that collides with the player after its update,
then its iteration removes it from the array and sets the ability to its value whatever the
ability was; after the frame the array consists of entries that come from `pre` followed by
the survivors of `post`, so `e` is no longer in it; and when no note at a lower index
collides, the ability held at the end of the frame is the value of `e`. -/
theorem note_collision_consumes (t r1 r2 : ℚ) (g : Game) (pre post : List GameObject)
    (e : GameObject) (hrun : g.gameOver = false)
    (h : (frameStart t r1 r2 g).gameObjects = pre ++ e :: post)
    (hreach : ∀ o ∈ post, o.type = "obstacle" →
      checkCollision g.player.update.rect o.update.1.rect = false)
    (htype : e.type = "note")
    (hcol : checkCollision g.player.update.rect e.update.1.rect = true) :
    (∀ (gm : Game) (post' : List GameObject), gm.player.rect = g.player.update.rect →
      gm.gameObjects = pre ++ e :: post' →
      (loopBody pre.length gm).1.player.ability = e.value ∧
      (loopBody pre.length gm).1.gameObjects = pre ++ post' ∧
      (loopBody pre.length gm).2 = false) ∧
    (∃ pre', (gameLoop t r1 r2 g).gameObjects = pre' ++ survivors g.player.update.rect post ∧
      pre'.length ≤ pre.length ∧
      ∀ a ∈ pre', ∃ b ∈ pre, a = b ∨ a = b.update.1 ∨ a = { b.update.1 with passed := true }) ∧
    ((∀ b ∈ pre, b.type = "note" → checkCollision g.player.update.rect b.update.1.rect = false) →
      (gameLoop t r1 r2 g).player.ability = e.value) := by
  have hx := frameStart_rect_x t r1 r2 g
  have hp := frameStart_player t r1 r2 g
  rw [hp] at hx
  have hnoPost := noHit_of_noCollision _ hx post hreach
  have hnote : takesNote g.player.update.rect e = true := (takesNote_iff _ e hx).2 ⟨hcol, htype⟩
  have hnoE : hitsObstacle g.player.update.rect e = false := by
    rw [← Bool.not_eq_true, hitsObstacle_iff _ e hx]
    rintro ⟨-, ht⟩
    rw [htype] at ht
    exact absurd ht (by decide)
  have hoff : e.update.2 = false := onScreen_of_collision _ e hx hcol
  refine ⟨?_, ?_, ?_⟩
  · intro gm post' hr hgm
    rw [loopBody_noHit gm pre post' e hgm (by rw [hr]; exact hnoE)]
    simp [hr, hnote, keptAs, update_value]
  · rcases noHit_or_lastHit g.player.update.rect pre with hno | ⟨pre1, o, pre2, hpre, ho, hno2⟩
    · have hall : ∀ x ∈ (frameStart t r1 r2 g).gameObjects,
          hitsObstacle (frameStart t r1 r2 g).player.rect x = false := by
        rw [h, hp]
        intro x hx'
        rcases List.mem_append.1 hx' with hx' | hx'
        · exact hno x hx'
        · rcases List.mem_cons.1 hx' with rfl | hx'
          · exact hnoE
          · exact hnoPost x hx'
      rw [gameLoop_noHit t r1 r2 g hrun hall]
      refine ⟨survivors g.player.update.rect pre, ?_, survivors_length_le _ _, ?_⟩
      · simp only [h, hp]
        rw [survivors_append]
        simp [survivors, List.filterMap_cons, keptAs, hnote]
      · intro a ha
        obtain ⟨b, hb, -, rfl⟩ := mem_survivors _ _ a ha
        refine ⟨b, hb, Or.inr ?_⟩
        exact settled_cases _ b
    · have hdec : (frameStart t r1 r2 g).gameObjects = pre1 ++ o :: (pre2 ++ e :: post) := by
        rw [h, hpre]; simp
      have hno' : ∀ x ∈ pre2 ++ e :: post,
          hitsObstacle (frameStart t r1 r2 g).player.rect x = false := by
        rw [hp]
        intro x hx'
        rcases List.mem_append.1 hx' with hx' | hx'
        · exact hno2 x hx'
        · rcases List.mem_cons.1 hx' with rfl | hx'
          · exact hnoE
          · exact hnoPost x hx'
      rw [gameLoop_hit t r1 r2 g hrun pre1 (pre2 ++ e :: post) o hdec (by rw [hp]; exact ho) hno']
      refine ⟨pre1 ++ o.update.1 :: survivors g.player.update.rect pre2, ?_, ?_, ?_⟩
      · simp only [hp]
        rw [survivors_append]
        simp [survivors, List.filterMap_cons, keptAs, hnote]
      · have := survivors_length_le g.player.update.rect pre2
        simp [hpre]
        omega
      · intro a ha
        rcases List.mem_append.1 ha with ha | ha
        · exact ⟨a, by simp [hpre, ha], Or.inl rfl⟩
        · rcases List.mem_cons.1 ha with rfl | ha
          · exact ⟨o, by simp [hpre], Or.inr (Or.inl rfl)⟩
          · obtain ⟨b, hb, -, rfl⟩ := mem_survivors _ _ a ha
            exact ⟨b, by simp [hpre, hb], Or.inr (settled_cases _ b)⟩
  · intro hlow
    have hpreNo : ∀ b ∈ pre, takesNote g.player.update.rect b = false := by
      intro b hb
      rw [← Bool.not_eq_true, takesNote_iff _ b hx]
      rintro ⟨hc, ht⟩
      rw [hlow b hb ht] at hc
      exact Bool.noConfusion hc
    rcases noHit_or_lastHit g.player.update.rect pre with hno | ⟨pre1, o, pre2, hpre, ho, hno2⟩
    · have hall : ∀ x ∈ (frameStart t r1 r2 g).gameObjects,
          hitsObstacle (frameStart t r1 r2 g).player.rect x = false := by
        rw [h, hp]
        intro x hx'
        rcases List.mem_append.1 hx' with hx' | hx'
        · exact hno x hx'
        · rcases List.mem_cons.1 hx' with rfl | hx'
          · exact hnoE
          · exact hnoPost x hx'
      rw [gameLoop_noHit t r1 r2 g hrun hall]
      simp only [h, hp]
      rw [abilityAfter_of_taken _ _ pre post e hpreNo hnote, update_value]
    · have hdec : (frameStart t r1 r2 g).gameObjects = pre1 ++ o :: (pre2 ++ e :: post) := by
        rw [h, hpre]; simp
      have hno' : ∀ x ∈ pre2 ++ e :: post,
          hitsObstacle (frameStart t r1 r2 g).player.rect x = false := by
        rw [hp]
        intro x hx'
        rcases List.mem_append.1 hx' with hx' | hx'
        · exact hno2 x hx'
        · rcases List.mem_cons.1 hx' with rfl | hx'
          · exact hnoE
          · exact hnoPost x hx'
      rw [gameLoop_hit t r1 r2 g hrun pre1 (pre2 ++ e :: post) o hdec (by rw [hp]; exact ho) hno']
      simp only [hp]
      rw [abilityAfter_of_taken _ _ pre2 post e
        (fun b hb => hpreNo b (by simp [hpre, hb])) hnote, update_value]


theorem note_collision_consumes_witness :
    (gameLoop 0 0 0 noteExample).player.ability = (lowNoteAt 120 2).value :=
  (note_collision_consumes 0 0 0 noteExample [] [lowNoteAt 125 1, obstacleAt 300 50]
    (lowNoteAt 120 2) rfl
    (by rw [frameStart_gameObjects_of_not_elapsed _ _ _ _ (by norm_num [noteExample, Game.initial])]
        rfl)
    (by decide) rfl (by decide)).2.2 (by simp)

/-! ## Scoring -/

theorem update_passed (o : GameObject) : o.update.1.passed = o.passed := by
  rw [update_fst]

theorem scoresNow_eq_flagTurns (r : Rect) (o : GameObject) : scoresNow r o = flagTurns r o := by
  unfold flagTurns keptAs settled
  by_cases hs : scoresNow r o = true
  · have hs' := hs
    simp only [scoresNow, Bool.and_eq_true, Bool.not_eq_true', decide_eq_true_eq] at hs'
    obtain ⟨⟨⟨hoff, ht⟩, -⟩, hp⟩ := hs'
    have hn : takesNote r o = false := by simp [takesNote, ht]
    rw [update_passed] at hp
    simp [hs, hoff, hn, hp]
  · have hs' : scoresNow r o = false := by simpa using hs
    by_cases hk : (o.update.2 || takesNote r o) = true
    · simp [hs', hk]
    · by_cases hp : o.passed = true
      · simp [hs', hp]
      · simp [hs', hk, update_passed, hp]

theorem gained_eq_flagTurns (r : Rect) (xs : List GameObject) :
    gained r xs = ((xs.filter (flagTurns r)).length : Int) := by
  unfold gained
  have : scoresNow r = flagTurns r := funext (scoresNow_eq_flagTurns r)
  rw [this]

theorem gained_nonneg (r : Rect) (xs : List GameObject) : 0 ≤ gained r xs := by
  unfold gained
  exact Int.ofNat_nonneg _

/-- The entry left in the array for a kept object: the object moved, its flag set exactly
when it is scored. -/
theorem keptAs_some (r : Rect) (e e' : GameObject) (hk : keptAs r e = some e') :
    { e' with passed := e.passed } = e.update.1 ∧
    (e.passed = true → e'.passed = true) ∧
    (e.passed = false → e'.passed = true →
      e.type = "obstacle" ∧ e'.x + e'.width < r.x) ∧
    (e.type = "note" → e'.passed = e.passed) := by
  unfold keptAs at hk
  split_ifs at hk
  have he : e' = settled r e := (Option.some.inj hk).symm
  subst he
  unfold settled
  by_cases hs : scoresNow r e = true
  · have hs' := hs
    simp only [scoresNow, Bool.and_eq_true, Bool.not_eq_true', decide_eq_true_eq] at hs'
    obtain ⟨⟨⟨-, ht⟩, hx⟩, hp⟩ := hs'
    rw [update_type] at ht
    rw [update_passed] at hp
    rw [if_pos hs]
    refine ⟨?_, fun _ => rfl, fun _ _ => ⟨ht, hx⟩, ?_⟩
    · rw [update_fst]
    · intro hn
      rw [hn] at ht
      exact absurd ht (by decide)
  · rw [if_neg hs]
    refine ⟨?_, ?_, ?_, ?_⟩
    · rw [update_fst]
    · intro h; rw [update_passed]; exact h
    · intro h1 h2
      rw [update_passed, h1] at h2
      exact Bool.noConfusion h2
    · intro _; exact update_passed e

/-- What a running frame does to the array and the score: the array after spawning splits
into the entries not processed and the entries processed, and the score grows by the number
of processed entries whose flag turns. -/
theorem gameLoop_scoring (t r1 r2 : ℚ) (g : Game) (hrun : g.gameOver = false) :
    ∃ low low' P : List GameObject,
      (frameStart t r1 r2 g).gameObjects = low ++ P ∧
      (gameLoop t r1 r2 g).gameObjects = low' ++ P.filterMap (keptAs g.player.update.rect) ∧
      low'.map GameObject.passed = low.map GameObject.passed ∧
      (low = [] ∨ (gameLoop t r1 r2 g).gameOver = true) ∧
      (gameLoop t r1 r2 g).score =
        g.score + ((P.filter (flagTurns g.player.update.rect)).length : Int) := by
  have hp := frameStart_player t r1 r2 g
  rcases noHit_or_lastHit (frameStart t r1 r2 g).player.rect (frameStart t r1 r2 g).gameObjects
    with hno | ⟨pre, o, post, h, ho, hno⟩
  · refine ⟨[], [], (frameStart t r1 r2 g).gameObjects, by simp, ?_, rfl, Or.inl rfl, ?_⟩
    · rw [gameLoop_noHit t r1 r2 g hrun hno]
      simp [hp, survivors]
    · rw [gameLoop_noHit t r1 r2 g hrun hno]
      simp only [hp, gained_eq_flagTurns]
  · refine ⟨pre ++ [o], pre ++ [o.update.1], post, by simp [h], ?_, ?_, Or.inr ?_, ?_⟩
    · rw [gameLoop_hit t r1 r2 g hrun pre post o h ho hno]
      simp [hp, survivors]
    · simp [update_passed]
    · rw [gameLoop_hit t r1 r2 g hrun pre post o h ho hno]
    · rw [gameLoop_hit t r1 r2 g hrun pre post o h ho hno]
      simp only [hp, gained_eq_flagTurns]

theorem gameLoop_score_le (t r1 r2 : ℚ) (g : Game) : g.score ≤ (gameLoop t r1 r2 g).score := by
  cases hgo : g.gameOver
  · obtain ⟨_, _, P, -, -, -, -, hs⟩ := gameLoop_scoring t r1 r2 g hgo
    rw [hs]
    have : (0 : Int) ≤ ((P.filter (flagTurns g.player.update.rect)).length : Int) :=
      Int.ofNat_nonneg _
    omega
  · rw [gameLoop_of_gameOver t r1 r2 g hgo]

theorem step_score_le (g : Game) (e : Event) : g.score ≤ (step g e).score := by
  cases e with
  | frame t r1 r2 => exact gameLoop_score_le t r1 r2 g
  | jump => exact Int.le_refl _

theorem run_score_le (es : List Event) : ∀ g : Game, g.score ≤ (run g es).score := by
  induction es with
  | nil => intro g; exact Int.le_refl _
  | cons e es ih =>
    intro g
    simp only [run, List.foldl_cons]
    exact Int.le_trans (step_score_le g e) (ih (step g e))


theorem update_x_ge (p : Player) (hv : 0 ≤ p.xVelocity) :
    p.x ≤ p.update.x ∧ p.update.xVelocity = p.xVelocity := by
  unfold Player.update
  simp only []
  split_ifs <;> simp <;> omega

theorem frameStart_lastSpawnTime_of_not_elapsed (t r1 r2 : ℚ) (g : Game)
    (h : ¬ (t - g.lastSpawnTime > 2000)) :
    (frameStart t r1 r2 g).lastSpawnTime = g.lastSpawnTime := by
  have hs := spawnObjects_of_not_elapsed t r1 r2
    { g with player := g.player.update,
             canvas := g.canvas ++ [DrawOp.clearRect 0 0 GAME_WIDTH GAME_HEIGHT,
               DrawOp.fillRect "#333" 0 FLOOR_Y GAME_WIDTH 5, g.player.update.draw] } h
  unfold frameStart
  simp only []
  rw [hs]

theorem gained_eq_zero_of_passed (r : Rect) (xs : List GameObject)
    (h : ∀ o ∈ xs, o.passed = true) : gained r xs = 0 := by
  unfold gained
  have : xs.filter (scoresNow r) = [] := by
    rw [List.filter_eq_nil_iff]
    intro o ho
    simp [scoresNow, update_passed, h o ho]
  rw [this]
  rfl

/-- A frame without a spawn, run in a state whose entries are all passed and behind the
player: the score stays, and the state after is of the same kind. -/
theorem allBehind_frame (t r1 r2 : ℚ) (g : Game) (ht : t ≤ 2000) (h : AllBehind g) :
    AllBehind (gameLoop t r1 r2 g) ∧ (gameLoop t r1 r2 g).score = g.score := by
  obtain ⟨hrun, hlast, hv, hx, hall⟩ := h
  have hne : ¬ (t - g.lastSpawnTime > 2000) := by
    rw [hlast]
    intro hgt
    linarith
  have hobjs := frameStart_gameObjects_of_not_elapsed t r1 r2 g hne
  have hp := frameStart_player t r1 r2 g
  obtain ⟨hxge, hxv⟩ := update_x_ge g.player hv
  have hrx : g.player.update.rect.x = g.player.update.x := rfl
  have hno : ∀ e ∈ (frameStart t r1 r2 g).gameObjects,
      hitsObstacle (frameStart t r1 r2 g).player.rect e = false := by
    rw [hobjs, hp]
    intro e he
    rw [← Bool.not_eq_true]
    intro hh
    simp only [hitsObstacle, Bool.and_eq_true, decide_eq_true_eq] at hh
    have hc := hh.1.2
    rw [checkCollision_iff, update_fst] at hc
    simp only [GameObject.rect, OBSTACLE_SPEED] at hc
    have := (hall e he).2
    omega
  rw [gameLoop_noHit t r1 r2 g hrun hno]
  simp only [hobjs, hp, frameStart_gameOver, frameStart_lastSpawnTime_of_not_elapsed t r1 r2 g hne]
  refine ⟨⟨hrun, hlast, ?_, ?_, ?_⟩, ?_⟩
  · rw [hxv]; exact hv
  · exact Int.le_trans hx hxge
  · intro a ha
    obtain ⟨b, hb, -, rfl⟩ := mem_survivors _ _ a ha
    obtain ⟨hbp, hbx⟩ := hall b hb
    rcases settled_cases g.player.update.rect b with hs | hs
    · rw [hs, update_passed, update_fst]
      simp only [OBSTACLE_SPEED]
      exact ⟨hbp, by omega⟩
    · rw [hs]
      refine ⟨rfl, ?_⟩
      show b.update.1.x + b.update.1.width < g.player.update.x
      rw [update_fst]
      simp only [OBSTACLE_SPEED]
      omega
  · rw [gained_eq_zero_of_passed _ _ (fun o ho => (hall o ho).1)]
    omega

theorem allBehind_run (ts : List ℚ) :
    ∀ g : Game, (∀ t ∈ ts, t ≤ 2000) → AllBehind g →
      (run g (ts.map (fun t => Event.frame t 0 0))).score = g.score := by
  induction ts with
  | nil => intro g _ _; rfl
  | cons t ts ih =>
    intro g ht hg
    have hf := allBehind_frame t 0 0 g (ht t (by simp)) hg
    simp only [List.map_cons, run, List.foldl_cons, step]
    have := ih (gameLoop t 0 0 g) (fun x hx => ht x (by simp [hx])) hf.1
    simp only [run] at this
    rw [this, hf.2]

theorem allBehind_scoreExample : AllBehind (gameLoop 0 0 0 scoreExample) := by
  unfold AllBehind
  norm_num [gameLoop, scoreExample, Game.initial, frameStart, spawnObjects, spawnInterval,
    entityLoop, loopBody, obstacleAt, GameObject.new, GameObject.update, checkCollision,
    scoreAndDraw, Player.update, Player.initial, FLOOR_Y, GRAVITY, OBSTACLE_SPEED, GAME_WIDTH,
    Player.rect, GameObject.rect]

/-- C6. Each obstacle is scored at most once. In every frame run from a running state the
array after spawning splits into the entries `low` the loop does not process (their flags
are as before; there are none unless the frame ends the game) and the entries `P` it
processes; each processed entry is removed or left as
`keptAs` gives it, which is the entry moved by its update with only the flag possibly
changed; the score grows by exactly the number of processed entries whose flag turns from
false to true. A flag turns only for an obstacle whose right edge, after the updates of the
frame, is strictly left of `Player.x`; a flag that is true stays true and is not counted
again; a note is never counted and its flag never changes. Hence the score never decreases
in a step or along a run, and is non-negative in every reachable state. Scenario: an
obstacle that is not passed and lies behind the player at x = 100 raises the score by 1 in
the first frame and by 0 in every later frame (frames in which nothing spawns). -/
theorem score_once_per_obstacle :
    (∀ (t r1 r2 : ℚ) (g : Game), g.gameOver = false →
      ∃ low low' P : List GameObject,
        (frameStart t r1 r2 g).gameObjects = low ++ P ∧
        (gameLoop t r1 r2 g).gameObjects = low' ++ P.filterMap (keptAs g.player.update.rect) ∧
        low'.map GameObject.passed = low.map GameObject.passed ∧
        (low = [] ∨ (gameLoop t r1 r2 g).gameOver = true) ∧
        (gameLoop t r1 r2 g).score =
          g.score + ((P.filter (flagTurns g.player.update.rect)).length : Int) ∧
        (∀ e ∈ P, ∀ e', keptAs g.player.update.rect e = some e' →
          { e' with passed := e.passed } = e.update.1 ∧
          (e.passed = true → e'.passed = true) ∧
          (e.passed = false → e'.passed = true →
            e.type = "obstacle" ∧ e'.x + e'.width < (gameLoop t r1 r2 g).player.x) ∧
          (e.type = "note" → e'.passed = e.passed)) ∧
        (∀ e ∈ P, e.passed = true ∨ e.type = "note" →
          flagTurns g.player.update.rect e = false)) ∧
    (∀ (g : Game) (e : Event), g.score ≤ (step g e).score) ∧
    (∀ (g : Game) (es : List Event), g.score ≤ (run g es).score) ∧
    (∀ g : Game, Reachable g → 0 ≤ g.score) ∧
    ((gameLoop 0 0 0 scoreExample).score = scoreExample.score + 1 ∧
      ∀ ts : List ℚ, (∀ t ∈ ts, t ≤ 2000) →
        (run (gameLoop 0 0 0 scoreExample) (ts.map (fun t => Event.frame t 0 0))).score =
          (gameLoop 0 0 0 scoreExample).score) := by
  refine ⟨?_, step_score_le, fun g es => run_score_le es g, ?_, ?_,
    fun ts hts => allBehind_run ts _ hts allBehind_scoreExample⟩
  · intro t r1 r2 g hrun
    obtain ⟨low, low', P, h1, h2, h3, h3', h4⟩ := gameLoop_scoring t r1 r2 g hrun
    refine ⟨low, low', P, h1, h2, h3, h3', h4, ?_, ?_⟩
    · intro e _ e' hk
      have hx : (gameLoop t r1 r2 g).player.x = g.player.update.rect.x := by
        rw [gameLoop_player t r1 r2 g hrun]
        rfl
      rw [hx]
      exact keptAs_some _ e e' hk
    · intro e _ hpn
      rw [← Bool.not_eq_true]
      intro hf
      unfold flagTurns at hf
      cases hk : keptAs g.player.update.rect e with
      | none => simp [hk] at hf
      | some e' =>
        simp only [hk, Bool.and_eq_true, Bool.not_eq_true'] at hf
        obtain ⟨-, -, hob, hnote⟩ := keptAs_some _ e e' hk
        rcases hpn with hp | hn
        · rw [hp] at hf
          exact Bool.noConfusion hf.1
        · have ht := (hob hf.1 hf.2).1
          rw [hn] at ht
          exact absurd ht (by decide)
  · rintro g ⟨es, -, rfl⟩
    exact run_score_le es Game.initial
  · norm_num [gameLoop, scoreExample, Game.initial, frameStart, spawnObjects, spawnInterval,
      entityLoop, loopBody, obstacleAt, GameObject.new, GameObject.update, checkCollision,
      scoreAndDraw, Player.update, Player.initial, FLOOR_Y, GRAVITY, OBSTACLE_SPEED, GAME_WIDTH,
      Player.rect, GameObject.rect]

/-! ## GameObject.update -/

/-- C11. For every entity, `update` decreases `x` by exactly 5, returns true if and only if
the new `x + width` is below 0, and changes no other field. -/
theorem update_spec (o : GameObject) :
    o.update.1.x = o.x - 5 ∧
    (o.update.2 = true ↔ o.update.1.x + o.update.1.width < 0) ∧
    o.update.1 = { x := o.x - 5, y := o.y, width := o.width, height := o.height,
                   color := o.color, type := o.type, value := o.value, passed := o.passed } := by
  refine ⟨?_, ?_, ?_⟩
  · rw [update_fst]; rfl
  · rw [update_snd, update_fst]
    simp
  · rw [update_fst]; rfl

theorem afterUpdates_succ (n : Nat) (o : GameObject) :
    o.afterUpdates (n + 1) = (o.afterUpdates n).update.1 := by
  unfold GameObject.afterUpdates
  rw [Function.iterate_succ_apply']

theorem afterUpdates_eq (n : Nat) (o : GameObject) :
    o.afterUpdates n = { o with x := o.x - 5 * n } := by
  induction n with
  | zero => simp [GameObject.afterUpdates]
  | succ n ih =>
    rw [afterUpdates_succ, ih, update_fst]
    simp only [OBSTACLE_SPEED, GameObject.mk.injEq, and_true]
    push_cast
    ring

theorem callAfter_iff (n : Nat) (o : GameObject) :
    o.callAfter n = true ↔ o.x - 5 * ((n : Int) + 1) + o.width < 0 := by
  unfold GameObject.callAfter
  rw [update_snd, afterUpdates_eq]
  simp only [OBSTACLE_SPEED, decide_eq_true_eq]
  constructor <;> intro h <;> omega

/-- C13. For an entity at integer `x0` with width `w`, call number `n` of `update` (calls
counted from 1, call `n` being `callAfter (n - 1)`) returns true if and only if
`x0 - 5n + w < 0`. For `x0 + w ≥ 0` the first call that returns true is call number
`floor((x0 + w)/5) + 1`: it returns true and no earlier call does. For the obstacle at
x = 800 of width 50, calls 1 to 170 return false, after call 170 it is at x = -50 with its
right edge at 0, call 171 returns true and leaves it at x = -55. -/
theorem update_nth_call (o : GameObject) :
    (∀ n : Nat, 1 ≤ n → (o.callAfter (n - 1) = true ↔ o.x - 5 * (n : Int) + o.width < 0)) ∧
    (∀ n : Nat, (o.afterUpdates n).x = o.x - 5 * (n : Int)) ∧
    (0 ≤ o.x + o.width →
      o.callAfter ((o.x + o.width) / 5).toNat = true ∧
      ∀ n : Nat, n < ((o.x + o.width) / 5).toNat → o.callAfter n = false) ∧
    ((∀ n : Nat, 1 ≤ n → n ≤ 170 → (obstacleAt 800 50).callAfter (n - 1) = false) ∧
      ((obstacleAt 800 50).afterUpdates 170).x = -50 ∧
      ((obstacleAt 800 50).afterUpdates 170).x + ((obstacleAt 800 50).afterUpdates 170).width = 0 ∧
      (obstacleAt 800 50).callAfter (171 - 1) = true ∧
      ((obstacleAt 800 50).afterUpdates 171).x = -55) := by
  refine ⟨?_, ?_, ?_, ?_⟩
  · intro n hn
    rw [callAfter_iff]
    have : ((n - 1 : Nat) : Int) + 1 = n := by omega
    rw [this]
  · intro n
    rw [afterUpdates_eq]
  · intro h0
    have hq : 0 ≤ (o.x + o.width) / 5 := Int.ediv_nonneg h0 (by decide)
    have hcast : (((o.x + o.width) / 5).toNat : Int) = (o.x + o.width) / 5 := Int.toNat_of_nonneg hq
    constructor
    · rw [callAfter_iff, hcast]
      omega
    · intro n hn
      rw [← Bool.not_eq_true, callAfter_iff]
      have : (n : Int) < (o.x + o.width) / 5 := by omega
      omega
  · refine ⟨?_, ?_, ?_, ?_, ?_⟩
    · intro n h1 h2
      rw [← Bool.not_eq_true, callAfter_iff]
      simp only [obstacleAt, GameObject.new]
      omega
    · rw [afterUpdates_eq]; rfl
    · rw [afterUpdates_eq]; rfl
    · rw [callAfter_iff]; decide
    · rw [afterUpdates_eq]; rfl

/-! ## Symmetry of the collision test -/

/-- C14. `checkCollision` is symmetric: for all rectangles `a` and `b`,
`checkCollision a b = checkCollision b a`. -/
theorem checkCollision_symm (a b : Rect) : checkCollision a b = checkCollision b a := by
  rw [Bool.eq_iff_iff, checkCollision_iff, checkCollision_iff]
  constructor <;> rintro ⟨h1, h2, h3, h4⟩ <;> exact ⟨by omega, by omega, by omega, by omega⟩

/-! ## Removal -/

/-- The array after a frame, seen from an entity `e` that the loop reaches: entries that come
from the lower indices, then what is left of `e`, then the survivors of the higher indices. -/
theorem gameLoop_at_entity (t r1 r2 : ℚ) (g : Game) (pre post : List GameObject)
    (e : GameObject) (hrun : g.gameOver = false)
    (h : (frameStart t r1 r2 g).gameObjects = pre ++ e :: post)
    (hnoPost : ∀ x ∈ post, hitsObstacle g.player.update.rect x = false) :
    ∃ pre', (gameLoop t r1 r2 g).gameObjects =
        pre' ++ ((if hitsObstacle g.player.update.rect e then [e.update.1]
                  else (keptAs g.player.update.rect e).toList) ++
                 survivors g.player.update.rect post) ∧
      pre'.length ≤ pre.length ∧
      ∀ a ∈ pre', ∃ b ∈ pre, a = b ∨ a = b.update.1 ∨ a = { b.update.1 with passed := true } := by
  have hp := frameStart_player t r1 r2 g
  by_cases he : hitsObstacle g.player.update.rect e = true
  · rw [gameLoop_hit t r1 r2 g hrun pre post e h (by rw [hp]; exact he) (by rw [hp]; exact hnoPost)]
    refine ⟨pre, ?_, Nat.le_refl _, fun a ha => ⟨a, ha, Or.inl rfl⟩⟩
    simp [hp, he]
  · have hnoE : hitsObstacle g.player.update.rect e = false := by simpa using he
    rcases noHit_or_lastHit g.player.update.rect pre with hno | ⟨pre1, o, pre2, hpre, ho, hno2⟩
    · have hall : ∀ x ∈ (frameStart t r1 r2 g).gameObjects,
          hitsObstacle (frameStart t r1 r2 g).player.rect x = false := by
        rw [h, hp]
        intro x hx'
        rcases List.mem_append.1 hx' with hx' | hx'
        · exact hno x hx'
        · rcases List.mem_cons.1 hx' with rfl | hx'
          · exact hnoE
          · exact hnoPost x hx'
      rw [gameLoop_noHit t r1 r2 g hrun hall]
      refine ⟨survivors g.player.update.rect pre, ?_, survivors_length_le _ _, ?_⟩
      · simp only [h, hp, hnoE]
        rw [survivors_append]
        simp only [Bool.false_eq_true, if_false]
        congr 1
        rw [toList_eq_filterMap_singleton]
        exact survivors_append _ [e] post
      · intro a ha
        obtain ⟨b, hb, -, rfl⟩ := mem_survivors _ _ a ha
        exact ⟨b, hb, Or.inr (settled_cases _ b)⟩
    · have hdec : (frameStart t r1 r2 g).gameObjects = pre1 ++ o :: (pre2 ++ e :: post) := by
        rw [h, hpre]; simp
      have hno' : ∀ x ∈ pre2 ++ e :: post,
          hitsObstacle (frameStart t r1 r2 g).player.rect x = false := by
        rw [hp]
        intro x hx'
        rcases List.mem_append.1 hx' with hx' | hx'
        · exact hno2 x hx'
        · rcases List.mem_cons.1 hx' with rfl | hx'
          · exact hnoE
          · exact hnoPost x hx'
      rw [gameLoop_hit t r1 r2 g hrun pre1 (pre2 ++ e :: post) o hdec (by rw [hp]; exact ho) hno']
      refine ⟨pre1 ++ o.update.1 :: survivors g.player.update.rect pre2, ?_, ?_, ?_⟩
      · simp only [hp, hnoE]
        rw [survivors_append]
        simp only [Bool.false_eq_true, if_false, List.append_assoc, List.cons_append]
        congr 3
        rw [toList_eq_filterMap_singleton]
        exact survivors_append _ [e] post
      · have := survivors_length_le g.player.update.rect pre2
        simp [hpre]
        omega
      · intro a ha
        rcases List.mem_append.1 ha with ha | ha
        · exact ⟨a, by simp [hpre, ha], Or.inl rfl⟩
        · rcases List.mem_cons.1 ha with rfl | ha
          · exact ⟨o, by simp [hpre], Or.inr (Or.inl rfl)⟩
          · obtain ⟨b, hb, -, rfl⟩ := mem_survivors _ _ a ha
            exact ⟨b, by simp [hpre, hb], Or.inr (settled_cases _ b)⟩

theorem keptAs_eq_none_iff (r : Rect) (e : GameObject) (hr : 0 ≤ r.x) :
    keptAs r e = none ↔
      (e.update.1.x + e.update.1.width < 0 ∨
        (e.type = "note" ∧ checkCollision r e.update.1.rect = true)) := by
  have hoff : e.update.2 = true ↔ e.update.1.x + e.update.1.width < 0 := by
    rw [update_snd, update_fst]
    simp
  unfold keptAs
  constructor
  · intro h
    split_ifs at h with hc
    rcases Bool.or_eq_true_iff.1 hc with ho | hn
    · exact Or.inl (hoff.1 ho)
    · exact Or.inr ((takesNote_iff r e hr).1 hn).symm
  · rintro (ho | ⟨ht, hc⟩)
    · rw [if_pos (by simp [hoff.2 ho])]
    · rw [if_pos (by simp [(takesNote_iff r e hr).2 ⟨hc, ht⟩])]

/-- C12 (as stated, refuted). In a frame from the running state `noteExample` the note at
index 0 is in the array after spawning and its right edge after its update is at 130, not
below 0, yet the array after the frame holds the far obstacle alone. -/
theorem consumed_note_removed_on_screen :
    noteExample.gameOver = false ∧
    (frameStart 0 0 0 noteExample).gameObjects =
      [lowNoteAt 120 2, lowNoteAt 125 1, obstacleAt 300 50] ∧
    (lowNoteAt 120 2).update.1.x + (lowNoteAt 120 2).update.1.width = 130 ∧
    ¬ ((lowNoteAt 120 2).update.1.x + (lowNoteAt 120 2).update.1.width < 0) ∧
    (gameLoop 0 0 0 noteExample).gameObjects = [(obstacleAt 300 50).update.1] := by
  have hobjs : (frameStart 0 0 0 noteExample).gameObjects =
      [lowNoteAt 120 2, lowNoteAt 125 1, obstacleAt 300 50] := by
    rw [frameStart_gameObjects_of_not_elapsed _ _ _ _ (by norm_num [noteExample, Game.initial])]
    rfl
  have hp := frameStart_player 0 0 0 noteExample
  have hno : ∀ e ∈ (frameStart 0 0 0 noteExample).gameObjects,
      hitsObstacle (frameStart 0 0 0 noteExample).player.rect e = false := by
    rw [hobjs, hp]
    decide
  refine ⟨rfl, hobjs, by decide, by decide, ?_⟩
  rw [gameLoop_noHit 0 0 0 noteExample rfl hno]
  simp only [hobjs, hp]
  decide

/-- C12 (amended). In a frame run from a running state, let the array after spawning be
`pre ++ e :: post`, where no obstacle of `post` collides with the player, so that the loop
reaches `e` and updates it. After the frame the array is made of entries that come from
`pre`, then what is left of `e` (nothing, or `e` as moved by its update, its flag possibly
set), then the survivors of `post`. Nothing is left of `e` if and only if, after its update,
its right edge `x + width` is below 0 or it is a note that collides with the player; for an
obstacle, if and only if its right edge is below 0. -/
theorem removal_iff (t r1 r2 : ℚ) (g : Game) (pre post : List GameObject)
    (e : GameObject) (hrun : g.gameOver = false)
    (h : (frameStart t r1 r2 g).gameObjects = pre ++ e :: post)
    (hreach : ∀ o ∈ post, o.type = "obstacle" →
      checkCollision g.player.update.rect o.update.1.rect = false) :
    ∃ (pre' : List GameObject) (left : Option GameObject),
      (gameLoop t r1 r2 g).gameObjects =
        pre' ++ (left.toList ++ survivors g.player.update.rect post) ∧
      pre'.length ≤ pre.length ∧
      (∀ a ∈ pre', ∃ b ∈ pre, a = b ∨ a = b.update.1 ∨ a = { b.update.1 with passed := true }) ∧
      (∀ e', left = some e' → { e' with passed := e.passed } = e.update.1) ∧
      (left = none ↔
        (e.update.1.x + e.update.1.width < 0 ∨
          (e.type = "note" ∧ checkCollision g.player.update.rect e.update.1.rect = true))) ∧
      (e.type = "obstacle" → (left = none ↔ e.update.1.x + e.update.1.width < 0)) := by
  have hx := frameStart_rect_x t r1 r2 g
  rw [frameStart_player] at hx
  have hnoPost := noHit_of_noCollision _ hx post hreach
  obtain ⟨pre', hfin, hlen, hder⟩ := gameLoop_at_entity t r1 r2 g pre post e hrun h hnoPost
  have hiff : ∀ left : Option GameObject,
      (left = none ↔ (e.update.1.x + e.update.1.width < 0 ∨
          (e.type = "note" ∧ checkCollision g.player.update.rect e.update.1.rect = true))) →
      (e.type = "obstacle" → (left = none ↔ e.update.1.x + e.update.1.width < 0)) := by
    intro left hl ht
    rw [hl]
    constructor
    · rintro (ho | ⟨hn, -⟩)
      · exact ho
      · rw [ht] at hn
        exact absurd hn (by decide)
    · exact Or.inl
  by_cases he : hitsObstacle g.player.update.rect e = true
  · have hce := (hitsObstacle_iff _ e hx).1 he
    have hon := onScreen_of_collision _ e hx hce.1
    have hedge : ¬ (e.update.1.x + e.update.1.width < 0) := by
      intro hlt
      rw [update_snd, update_fst] at *
      simp at hon
      simp only [OBSTACLE_SPEED] at hlt hon
      omega
    have hl : ((some e.update.1 : Option GameObject) = none ↔
        (e.update.1.x + e.update.1.width < 0 ∨
          (e.type = "note" ∧ checkCollision g.player.update.rect e.update.1.rect = true))) := by
      constructor
      · intro hs; exact Option.noConfusion hs
      · rintro (ho | ⟨hn, -⟩)
        · exact absurd ho hedge
        · rw [hce.2] at hn
          exact absurd hn (by decide)
    refine ⟨pre', some e.update.1, ?_, hlen, hder, ?_, hl, hiff _ hl⟩
    · rw [hfin, if_pos he]
      rfl
    · intro e' he'
      rw [← Option.some.inj he', ← update_passed e]
  · have hl := keptAs_eq_none_iff g.player.update.rect e hx
    refine ⟨pre', keptAs g.player.update.rect e, ?_, hlen, hder, ?_, hl, hiff _ hl⟩
    · rw [hfin, if_neg he]
    · intro e' he'
      exact (keptAs_some _ e e' he').1

theorem removal_iff_witness :
    ∃ (pre' : List GameObject) (left : Option GameObject),
      (gameLoop 0 0 0 noteExample).gameObjects =
        pre' ++ (left.toList ++
          survivors noteExample.player.update.rect [lowNoteAt 125 1, obstacleAt 300 50]) ∧
      pre'.length ≤ ([] : List GameObject).length ∧
      (∀ a ∈ pre', ∃ b ∈ ([] : List GameObject),
        a = b ∨ a = b.update.1 ∨ a = { b.update.1 with passed := true }) ∧
      (∀ e', left = some e' →
        { e' with passed := (lowNoteAt 120 2).passed } = (lowNoteAt 120 2).update.1) ∧
      (left = none ↔
        ((lowNoteAt 120 2).update.1.x + (lowNoteAt 120 2).update.1.width < 0 ∨
          ((lowNoteAt 120 2).type = "note" ∧
            checkCollision noteExample.player.update.rect (lowNoteAt 120 2).update.1.rect = true))) ∧
      ((lowNoteAt 120 2).type = "obstacle" →
        (left = none ↔ (lowNoteAt 120 2).update.1.x + (lowNoteAt 120 2).update.1.width < 0)) :=
  removal_iff 0 0 0 noteExample [] [lowNoteAt 125 1, obstacleAt 300 50] (lowNoteAt 120 2) rfl
    (by rw [frameStart_gameObjects_of_not_elapsed _ _ _ _ (by norm_num [noteExample, Game.initial])]
        rfl)
    (by decide)

/-! ## Drawing -/

theorem filter_map_eq_flatMap (l : List GameObject) :
    (l.filter (fun o => !o.update.2)).map (fun o => o.update.1.draw) =
      l.flatMap (fun o => if o.update.2 then [] else [o.update.1.draw]) := by
  induction l with
  | nil => rfl
  | cons a l ih =>
    rw [List.flatMap_cons, ← ih]
    by_cases ha : a.update.2 = true
    · simp [List.filter_cons, ha]
    · simp [List.filter_cons, ha]

theorem settled_draw (r : Rect) (e : GameObject) : (settled r e).draw = e.update.1.draw := by
  rcases settled_cases r e with h | h
  · rw [h]
  · rw [h]; rfl

/-- C15 (as stated, refuted). The frame run from the running state `collisionExample` ends
the game at the obstacle of index 1. That obstacle has been updated (it moved from x = 130
to x = 125) and is in the array after the frame, but no rectangle is drawn for it: the only
entity drawn is the one of index 2. -/
theorem hit_obstacle_remains_undrawn :
    collisionExample.gameOver = false ∧
    (frameStart 0 0 0 collisionExample).gameObjects =
      [obstacleAt 300 50, obstacleAt 130 50, obstacleAt 40 50] ∧
    (gameLoop 0 0 0 collisionExample).gameObjects =
      [obstacleAt 300 50, obstacleAt 125 50, { obstacleAt 35 50 with passed := true }] ∧
    (gameLoop 0 0 0 collisionExample).canvas =
      [DrawOp.clearRect 0 0 800 600, DrawOp.fillRect "#333" 0 500 800 5,
       DrawOp.fillRect "blue" 103 470 30 30, (obstacleAt 35 50).draw] ∧
    (obstacleAt 125 50).draw ∉ (gameLoop 0 0 0 collisionExample).canvas := by
  have hobjs : (frameStart 0 0 0 collisionExample).gameObjects =
      [obstacleAt 300 50] ++ obstacleAt 130 50 :: [obstacleAt 40 50] := by
    rw [frameStart_gameObjects_of_not_elapsed _ _ _ _
      (by norm_num [collisionExample, Game.initial])]
    rfl
  have hp := frameStart_player 0 0 0 collisionExample
  have hfin := gameLoop_hit 0 0 0 collisionExample rfl [obstacleAt 300 50] [obstacleAt 40 50]
    (obstacleAt 130 50) hobjs (by rw [hp]; decide) (by rw [hp]; decide)
  have hcanvas : (gameLoop 0 0 0 collisionExample).canvas =
      [DrawOp.clearRect 0 0 800 600, DrawOp.fillRect "#333" 0 500 800 5,
       DrawOp.fillRect "blue" 103 470 30 30, (obstacleAt 35 50).draw] := by
    rw [hfin]
    simp only [frameStart_canvas]
    decide
  refine ⟨rfl, hobjs, ?_, hcanvas, ?_⟩
  · rw [hfin]
    simp only [hp]
    decide
  · rw [hcanvas]
    decide

/-- C15 (amended). In a frame run from a running state, after the clearing of the surface,
the floor and the player, the frame draws the entities as follows, each entity contributing
nothing or its own rectangle (`f`): nothing for an entity deleted because its update
signalled that it left the screen, and exactly its rectangle for every entity whose
iteration runs to its end and that remains in the array. When no obstacle collides with the
player, the game goes on and the contributions of all entities are drawn, from the highest
index down. When the obstacle `o` collides (the array after spawning being
`pre ++ o :: post`, no obstacle of `post` colliding), the game ends, `o` stays in the array
as updated, between the untouched `pre` and the survivors of `post`, and only the
contributions of `post` are drawn: nothing is drawn for `o` nor for `pre`. Every frame is of
one of these two kinds. -/
theorem draws_of_frame (t r1 r2 : ℚ) (g : Game) (hrun : g.gameOver = false) :
    ∃ f : GameObject → List DrawOp,
      (∀ e, f e = [] ∨ f e = [e.update.1.draw]) ∧
      (∀ e, e.update.2 = true → keptAs g.player.update.rect e = none ∧ f e = []) ∧
      (∀ e e', keptAs g.player.update.rect e = some e' → f e = [e'.draw]) ∧
      ((∀ e ∈ (frameStart t r1 r2 g).gameObjects, e.type = "obstacle" →
          checkCollision g.player.update.rect e.update.1.rect = false) →
        (gameLoop t r1 r2 g).gameOver = false ∧
        (gameLoop t r1 r2 g).gameObjects =
          (frameStart t r1 r2 g).gameObjects.filterMap (keptAs g.player.update.rect) ∧
        (gameLoop t r1 r2 g).canvas =
          g.canvas ++ [DrawOp.clearRect 0 0 GAME_WIDTH GAME_HEIGHT,
                       DrawOp.fillRect "#333" 0 FLOOR_Y GAME_WIDTH 5, g.player.update.draw] ++
            (frameStart t r1 r2 g).gameObjects.reverse.flatMap f) ∧
      (∀ (pre post : List GameObject) (o : GameObject),
        (frameStart t r1 r2 g).gameObjects = pre ++ o :: post →
        o.type = "obstacle" →
        checkCollision g.player.update.rect o.update.1.rect = true →
        (∀ e ∈ post, e.type = "obstacle" →
          checkCollision g.player.update.rect e.update.1.rect = false) →
        (gameLoop t r1 r2 g).gameOver = true ∧
        (gameLoop t r1 r2 g).gameObjects =
          pre ++ o.update.1 :: post.filterMap (keptAs g.player.update.rect) ∧
        (gameLoop t r1 r2 g).canvas =
          g.canvas ++ [DrawOp.clearRect 0 0 GAME_WIDTH GAME_HEIGHT,
                       DrawOp.fillRect "#333" 0 FLOOR_Y GAME_WIDTH 5, g.player.update.draw] ++
            post.reverse.flatMap f) ∧
      ((∀ e ∈ (frameStart t r1 r2 g).gameObjects, e.type = "obstacle" →
          checkCollision g.player.update.rect e.update.1.rect = false) ∨
        ∃ (pre post : List GameObject) (o : GameObject),
          (frameStart t r1 r2 g).gameObjects = pre ++ o :: post ∧ o.type = "obstacle" ∧
          checkCollision g.player.update.rect o.update.1.rect = true ∧
          ∀ e ∈ post, e.type = "obstacle" →
            checkCollision g.player.update.rect e.update.1.rect = false) := by
  have hp := frameStart_player t r1 r2 g
  have hx := frameStart_rect_x t r1 r2 g
  rw [hp] at hx
  refine ⟨fun o => if o.update.2 then [] else [o.update.1.draw], ?_, ?_, ?_, ?_, ?_, ?_⟩
  · intro e
    by_cases ho : e.update.2 = true
    · exact Or.inl (by simp [ho])
    · exact Or.inr (by simp [ho])
  · intro e ho
    simp [keptAs, ho]
  · intro e e' hk
    have hk' := hk
    unfold keptAs at hk'
    split_ifs at hk' with hc
    have hoff : e.update.2 = false := by
      cases hb : e.update.2
      · rfl
      · simp [hb] at hc
    rw [← Option.some.inj hk', settled_draw]
    simp [hoff]
  · intro hnocol
    have hno : ∀ e ∈ (frameStart t r1 r2 g).gameObjects,
        hitsObstacle (frameStart t r1 r2 g).player.rect e = false := by
      rw [hp]
      exact noHit_of_noCollision _ hx _ hnocol
    rw [gameLoop_noHit t r1 r2 g hrun hno]
    refine ⟨?_, ?_, ?_⟩
    · show (frameStart t r1 r2 g).gameOver = false
      rw [frameStart_gameOver]; exact hrun
    · simp [hp, survivors]
    · simp only [frameStart_canvas, drawnOps, filter_map_eq_flatMap]
  · intro pre post o hsplit htype hcol hpost
    have ho : hitsObstacle (frameStart t r1 r2 g).player.rect o = true := by
      rw [hp]
      exact (hitsObstacle_iff _ o hx).2 ⟨hcol, htype⟩
    have hno : ∀ e ∈ post, hitsObstacle (frameStart t r1 r2 g).player.rect e = false := by
      rw [hp]
      exact noHit_of_noCollision _ hx _ hpost
    rw [gameLoop_hit t r1 r2 g hrun pre post o hsplit ho hno]
    refine ⟨rfl, ?_, ?_⟩
    · simp [hp, survivors]
    · simp only [frameStart_canvas, drawnOps, filter_map_eq_flatMap]
  · rcases noHit_or_lastHit g.player.update.rect (frameStart t r1 r2 g).gameObjects
      with hno | ⟨pre, o, post, h, ho, hno⟩
    · left
      intro e he ht
      rw [← Bool.not_eq_true]
      intro hc
      have := (hitsObstacle_iff _ e hx).2 ⟨hc, ht⟩
      rw [hno e he] at this
      exact Bool.noConfusion this
    · right
      obtain ⟨hc, ht⟩ := (hitsObstacle_iff _ o hx).1 ho
      refine ⟨pre, post, o, h, ht, hc, ?_⟩
      intro e he hte
      rw [← Bool.not_eq_true]
      intro hce
      have := (hitsObstacle_iff _ e hx).2 ⟨hce, hte⟩
      rw [hno e he] at this
      exact Bool.noConfusion this

theorem draws_of_frame_witness :
    ∃ f : GameObject → List DrawOp,
      (∀ e, f e = [] ∨ f e = [e.update.1.draw]) ∧
      (∀ e, e.update.2 = true → keptAs collisionExample.player.update.rect e = none ∧ f e = []) ∧
      (∀ e e', keptAs collisionExample.player.update.rect e = some e' → f e = [e'.draw]) ∧
      ((∀ e ∈ (frameStart 0 0 0 collisionExample).gameObjects, e.type = "obstacle" →
          checkCollision collisionExample.player.update.rect e.update.1.rect = false) →
        (gameLoop 0 0 0 collisionExample).gameOver = false ∧
        (gameLoop 0 0 0 collisionExample).gameObjects =
          (frameStart 0 0 0 collisionExample).gameObjects.filterMap
            (keptAs collisionExample.player.update.rect) ∧
        (gameLoop 0 0 0 collisionExample).canvas =
          collisionExample.canvas ++ [DrawOp.clearRect 0 0 GAME_WIDTH GAME_HEIGHT,
            DrawOp.fillRect "#333" 0 FLOOR_Y GAME_WIDTH 5, collisionExample.player.update.draw] ++
            (frameStart 0 0 0 collisionExample).gameObjects.reverse.flatMap f) ∧
      (∀ (pre post : List GameObject) (o : GameObject),
        (frameStart 0 0 0 collisionExample).gameObjects = pre ++ o :: post →
        o.type = "obstacle" →
        checkCollision collisionExample.player.update.rect o.update.1.rect = true →
        (∀ e ∈ post, e.type = "obstacle" →
          checkCollision collisionExample.player.update.rect e.update.1.rect = false) →
        (gameLoop 0 0 0 collisionExample).gameOver = true ∧
        (gameLoop 0 0 0 collisionExample).gameObjects =
          pre ++ o.update.1 :: post.filterMap (keptAs collisionExample.player.update.rect) ∧
        (gameLoop 0 0 0 collisionExample).canvas =
          collisionExample.canvas ++ [DrawOp.clearRect 0 0 GAME_WIDTH GAME_HEIGHT,
            DrawOp.fillRect "#333" 0 FLOOR_Y GAME_WIDTH 5, collisionExample.player.update.draw] ++
            post.reverse.flatMap f) ∧
      ((∀ e ∈ (frameStart 0 0 0 collisionExample).gameObjects, e.type = "obstacle" →
          checkCollision collisionExample.player.update.rect e.update.1.rect = false) ∨
        ∃ (pre post : List GameObject) (o : GameObject),
          (frameStart 0 0 0 collisionExample).gameObjects = pre ++ o :: post ∧
          o.type = "obstacle" ∧
          checkCollision collisionExample.player.update.rect o.update.1.rect = true ∧
          ∀ e ∈ post, e.type = "obstacle" →
            checkCollision collisionExample.player.update.rect e.update.1.rect = false) :=
  draws_of_frame 0 0 0 collisionExample rfl

/-- The note branch of the loop has no `continue` after its `splice` (line 169), unlike the
off-screen branch (lines 157-158): in the frame run from `noteExample` both notes are
consumed, neither is in the array afterwards, and a rectangle is drawn for each of them. -/
theorem consumed_note_is_drawn :
    (gameLoop 0 0 0 noteExample).gameObjects = [obstacleAt 295 50] ∧
    (gameLoop 0 0 0 noteExample).canvas =
      [DrawOp.clearRect 0 0 800 600, DrawOp.fillRect "#333" 0 500 800 5,
       DrawOp.fillRect "blue" 103 470 30 30, (obstacleAt 295 50).draw,
       (lowNoteAt 120 1).draw, (lowNoteAt 115 2).draw] := by
  have hobjs : (frameStart 0 0 0 noteExample).gameObjects =
      [lowNoteAt 120 2, lowNoteAt 125 1, obstacleAt 300 50] := by
    rw [frameStart_gameObjects_of_not_elapsed _ _ _ _ (by norm_num [noteExample, Game.initial])]
    rfl
  have hp := frameStart_player 0 0 0 noteExample
  have hno : ∀ e ∈ (frameStart 0 0 0 noteExample).gameObjects,
      hitsObstacle (frameStart 0 0 0 noteExample).player.rect e = false := by
    rw [hobjs, hp]
    decide
  rw [gameLoop_noHit 0 0 0 noteExample rfl hno]
  simp only [hobjs, hp, frameStart_canvas]
  decide

/-! ## The in-place loop and the filtered sequence -/

theorem survivors_eq_filteredSequence (r : Rect) (xs : List GameObject) :
    survivors r xs = filteredSequence r xs := by
  unfold survivors filteredSequence
  induction xs with
  | nil => rfl
  | cons a l ih =>
    by_cases ha : (a.update.2 || takesNote r a) = true
    · rw [List.filterMap_cons, List.filter_cons, ih]
      simp [keptAs, ha]
    · rw [List.filterMap_cons, List.filter_cons, ih]
      have ha' : (a.update.2 || takesNote r a) = false := by simpa using ha
      simp [keptAs, ha']

/-- The loop arrives at every index with the entry of that index and the entries below it
still as they were after spawning. -/
theorem entityLoop_arrives (g : Game) (pre post : List GameObject) (e : GameObject)
    (h : g.gameObjects = pre ++ e :: post)
    (hno : ∀ x ∈ g.gameObjects, hitsObstacle g.player.rect x = false) :
    ∃ gm gm' : Game,
      entityLoop g.gameObjects.length g = entityLoop (pre.length + 1) gm ∧
      gm.gameObjects = pre ++ e :: survivors g.player.rect post ∧
      loopBody pre.length gm = (gm', false) ∧
      gm'.gameObjects = pre ++ ((keptAs g.player.rect e).toList ++ survivors g.player.rect post) ∧
      entityLoop (pre.length + 1) gm = entityLoop pre.length gm' := by
  have hlen : g.gameObjects.length = (pre ++ [e]).length + post.length := by
    simp [h]; omega
  have hpost : ∀ x ∈ post, hitsObstacle g.player.rect x = false :=
    fun x hx => hno x (by simp [h, hx])
  have he : hitsObstacle g.player.rect e = false := hno e (by simp [h])
  have hseg := entityLoop_segment post g (pre ++ [e]) [] (by simp [h]) hpost
  have hbody := loopBody_noHit
    { g with
      player := { g.player with ability := abilityAfter g.player.rect g.player.ability post },
      gameObjects := pre ++ [e] ++ (survivors g.player.rect post ++ []),
      score := g.score + gained g.player.rect post,
      canvas := g.canvas ++ drawnOps post } pre (survivors g.player.rect post) e (by simp) he
  refine ⟨_, _, ?_, ?_, hbody, ?_, ?_⟩
  · rw [hlen, hseg]
    simp
  · simp
  · rfl
  · rw [entityLoop, hbody]

theorem settled_restore (r : Rect) (b : GameObject) :
    (settled r b).x = b.x - 5 ∧ { settled r b with passed := b.passed } = b.update.1 := by
  rcases settled_cases r b with h | h
  · rw [h]
    constructor
    · rw [update_fst]; rfl
    · rw [← update_passed b]
  · rw [h]
    constructor
    · rw [update_fst]; rfl
    · rw [← update_passed b]

/-- C16. Safe removal under reverse-index iteration. In a frame run from a running state in
which no obstacle collides with the player, the in-place loop (index from `length - 1` down
to 0, with `splice`) runs to index 0 without returning, and the array it leaves is the
filtered sequence: the array after spawning with the removed entities filtered out, the
others kept in their order, each with `x` lower by exactly 5 and otherwise as its update
left it, the flag apart. Every entity is processed exactly once, at the iteration whose
index is its position after spawning: when the loop arrives there, the entity and all
entities below it are still as they were, and the entities above it have been processed;
the iteration puts the entity through its step and the loop goes on below it. -/
theorem reverse_loop_refines_filter (t r1 r2 : ℚ) (g : Game) (hrun : g.gameOver = false)
    (hnocol : ∀ e ∈ (frameStart t r1 r2 g).gameObjects, e.type = "obstacle" →
      checkCollision g.player.update.rect e.update.1.rect = false) :
    (entityLoop (frameStart t r1 r2 g).gameObjects.length (frameStart t r1 r2 g)).2 = false ∧
    (entityLoop (frameStart t r1 r2 g).gameObjects.length (frameStart t r1 r2 g)).1.gameObjects =
      filteredSequence g.player.update.rect (frameStart t r1 r2 g).gameObjects ∧
    (gameLoop t r1 r2 g).gameObjects =
      filteredSequence g.player.update.rect (frameStart t r1 r2 g).gameObjects ∧
    ((frameStart t r1 r2 g).gameObjects.filter
      (fun e => !(e.update.2 || takesNote g.player.update.rect e))).Sublist
        (frameStart t r1 r2 g).gameObjects ∧
    List.Forall₂ (fun b a => a.x = b.x - 5 ∧ { a with passed := b.passed } = b.update.1)
      ((frameStart t r1 r2 g).gameObjects.filter
        (fun e => !(e.update.2 || takesNote g.player.update.rect e)))
      (gameLoop t r1 r2 g).gameObjects ∧
    (∀ (pre post : List GameObject) (e : GameObject),
      (frameStart t r1 r2 g).gameObjects = pre ++ e :: post →
      ∃ gm gm' : Game,
        entityLoop (frameStart t r1 r2 g).gameObjects.length (frameStart t r1 r2 g) =
          entityLoop (pre.length + 1) gm ∧
        gm.gameObjects = pre ++ e :: filteredSequence g.player.update.rect post ∧
        loopBody pre.length gm = (gm', false) ∧
        gm'.gameObjects = pre ++ (filteredSequence g.player.update.rect [e] ++
          filteredSequence g.player.update.rect post) ∧
        entityLoop (pre.length + 1) gm = entityLoop pre.length gm') := by
  have hx := frameStart_rect_x t r1 r2 g
  have hp := frameStart_player t r1 r2 g
  have hno : ∀ e ∈ (frameStart t r1 r2 g).gameObjects,
      hitsObstacle (frameStart t r1 r2 g).player.rect e = false := by
    rw [hp] at hx ⊢
    exact noHit_of_noCollision _ hx _ hnocol
  have hfin : (gameLoop t r1 r2 g).gameObjects =
      filteredSequence g.player.update.rect (frameStart t r1 r2 g).gameObjects := by
    rw [gameLoop_noHit t r1 r2 g hrun hno]
    simp only [hp]
    exact survivors_eq_filteredSequence _ _
  refine ⟨?_, ?_, hfin, List.filter_sublist _, ?_, ?_⟩
  · rw [entityLoop_noHit _ hno]
  · rw [entityLoop_noHit _ hno]
    simp only [hp]
    exact survivors_eq_filteredSequence _ _
  · rw [hfin]
    unfold filteredSequence
    rw [List.forall₂_map_right_iff, List.forall₂_same]
    intro b _
    exact settled_restore _ b
  · intro pre post e hsplit
    obtain ⟨gm, gm', h1, h2, h3, h4, h5⟩ := entityLoop_arrives _ pre post e hsplit hno
    rw [hp] at h2 h4
    refine ⟨gm, gm', h1, ?_, h3, ?_, h5⟩
    · rw [h2, survivors_eq_filteredSequence]
    · rw [h4, ← survivors_eq_filteredSequence, ← survivors_eq_filteredSequence]
      rw [toList_eq_filterMap_singleton]
      rfl

theorem reverse_loop_refines_filter_witness :
    (gameLoop 0 0 0 noteExample).gameObjects =
      filteredSequence noteExample.player.update.rect (frameStart 0 0 0 noteExample).gameObjects :=
  (reverse_loop_refines_filter 0 0 0 noteExample rfl
    (by rw [frameStart_gameObjects_of_not_elapsed _ _ _ _ (by norm_num [noteExample, Game.initial])]
        decide)).2.2.1

/-! ## Frames preserve properties of the entities -/

/-- What the spawner does to the array: nothing, or one obstacle appended, or one note. -/
theorem spawnObjects_objects (t r1 r2 : ℚ) (g : Game) :
    (spawnObjects t r1 r2 g).gameObjects = g.gameObjects ∨
    (spawnObjects t r1 r2 g).gameObjects = g.gameObjects ++
      [{ x := 800, y := 470, width := Int.floor (roundDouble (r2 * 60)) + 40, height := 30,
         color := "black",
         type := "obstacle", value := 0, passed := false }] ∨
    (spawnObjects t r1 r2 g).gameObjects = g.gameObjects ++
      [{ x := 800, y := 440, width := 15, height := 25,
         color := if r2 < 0.5 then "green" else "red",
         type := "note", value := if r2 < 0.5 then 1 else 2, passed := false }] := by
  unfold spawnObjects
  by_cases hg : t - g.lastSpawnTime > spawnInterval
  · rw [if_pos hg]
    by_cases h1 : r1 < roundDouble 0.6
    · rw [if_pos h1]
      exact Or.inr (Or.inl rfl)
    · rw [if_neg h1]
      right; right
      by_cases h2 : r2 < 0.5
      · simp [h2, GameObject.new, GAME_WIDTH, FLOOR_Y]
      · simp [h2, GameObject.new, GAME_WIDTH, FLOOR_Y]
  · rw [if_neg hg]
    exact Or.inl rfl

theorem frameStart_objects (t r1 r2 : ℚ) (g : Game) :
    (frameStart t r1 r2 g).gameObjects = g.gameObjects ∨
    (frameStart t r1 r2 g).gameObjects = g.gameObjects ++
      [{ x := 800, y := 470, width := Int.floor (roundDouble (r2 * 60)) + 40, height := 30,
         color := "black",
         type := "obstacle", value := 0, passed := false }] ∨
    (frameStart t r1 r2 g).gameObjects = g.gameObjects ++
      [{ x := 800, y := 440, width := 15, height := 25,
         color := if r2 < 0.5 then "green" else "red",
         type := "note", value := if r2 < 0.5 then 1 else 2, passed := false }] := by
  unfold frameStart
  exact spawnObjects_objects t r1 r2 _

/-- A property of entities that survives `update` and the setting of the flag, and holds for
all entities after spawning, holds for all entities after the frame. -/
theorem gameLoop_objects_forall (P : GameObject → Prop)
    (hP : ∀ o, P o → P o.update.1 ∧ P { o.update.1 with passed := true })
    (t r1 r2 : ℚ) (g : Game) (hrun : g.gameOver = false)
    (hall : ∀ o ∈ (frameStart t r1 r2 g).gameObjects, P o) :
    ∀ o ∈ (gameLoop t r1 r2 g).gameObjects, P o := by
  have hsurv : ∀ xs : List GameObject, (∀ o ∈ xs, P o) →
      ∀ a ∈ survivors (frameStart t r1 r2 g).player.rect xs, P a := by
    intro xs hxs a ha
    obtain ⟨b, hb, -, rfl⟩ := mem_survivors _ _ a ha
    rcases settled_cases (frameStart t r1 r2 g).player.rect b with hs | hs
    · rw [hs]; exact (hP b (hxs b hb)).1
    · rw [hs]; exact (hP b (hxs b hb)).2
  rcases noHit_or_lastHit (frameStart t r1 r2 g).player.rect (frameStart t r1 r2 g).gameObjects
    with hno | ⟨pre, o, post, h, ho, hno⟩
  · rw [gameLoop_noHit t r1 r2 g hrun hno]
    exact hsurv _ hall
  · rw [gameLoop_hit t r1 r2 g hrun pre post o h ho hno]
    rw [h] at hall
    intro a ha
    simp only [List.mem_append, List.mem_cons] at ha
    rcases ha with ha | rfl | ha
    · exact hall a (by simp [ha])
    · exact (hP o (hall o (by simp))).1
    · exact hsurv post (fun x hx => hall x (by simp [hx])) a ha

/-- The ability after a frame from a running state. -/
theorem gameLoop_ability_of_no_note (t r1 r2 : ℚ) (g : Game) (hrun : g.gameOver = false)
    (hnone : ∀ o ∈ (frameStart t r1 r2 g).gameObjects,
      takesNote g.player.update.rect o = false) :
    (gameLoop t r1 r2 g).player.ability = g.player.update.ability := by
  have hp := frameStart_player t r1 r2 g
  have hab : ∀ xs : List GameObject, (∀ o ∈ xs, takesNote g.player.update.rect o = false) →
      ∀ a, abilityAfter g.player.update.rect a xs = a := by
    intro xs hxs a
    unfold abilityAfter
    have : xs.find? (takesNote g.player.update.rect) = none := by
      rw [List.find?_eq_none]
      intro b hb
      simp [hxs b hb]
    rw [this]
  rcases noHit_or_lastHit (frameStart t r1 r2 g).player.rect (frameStart t r1 r2 g).gameObjects
    with hno | ⟨pre, o, post, h, ho, hno⟩
  · rw [gameLoop_noHit t r1 r2 g hrun hno]
    simp only [hp]
    exact hab _ hnone _
  · rw [gameLoop_hit t r1 r2 g hrun pre post o h ho hno]
    simp only [hp]
    exact hab post (fun x hx => hnone x (by simp [h, hx])) _

theorem update_ability (p : Player) : p.update.ability = p.ability := by
  unfold Player.update
  simp only []
  split_ifs <;> rfl

/-! ## The player never leaves the floor -/

theorem update_grounded (p : Player) (hy : p.y = 470) (hh : p.height = 30)
    (hv : p.yVelocity = 0) :
    p.update.y = 470 ∧ p.update.height = 30 ∧ p.update.yVelocity = 0 ∧
      p.update.isJumping = false := by
  unfold Player.update
  simp only [GRAVITY, FLOOR_Y, hy, hh, hv]
  rw [if_pos (by decide)]
  simp

theorem noteShape_update (o : GameObject) (h : NoteShape o) :
    NoteShape o.update.1 ∧ NoteShape { o.update.1 with passed := true } := by
  unfold NoteShape at *
  rw [update_fst]
  exact ⟨h, h⟩

/-- A note of the spawned shape does not collide with a rectangle whose top is at 470. -/
theorem noteShape_no_collision (r : Rect) (o : GameObject) (hr : r.y = 470)
    (h : NoteShape o) : checkCollision r o.rect = false ∧ checkCollision r o.update.1.rect = false := by
  obtain ⟨-, hy, hh⟩ := h
  constructor
  · rw [← Bool.not_eq_true, checkCollision_iff]
    simp only [GameObject.rect]
    omega
  · rw [← Bool.not_eq_true, checkCollision_iff, update_fst]
    simp only [GameObject.rect]
    omega

theorem grounded_frameStart (t r1 r2 : ℚ) (g : Game) (h : Grounded g) :
    ∀ o ∈ (frameStart t r1 r2 g).gameObjects, o.type = "obstacle" ∨ NoteShape o := by
  obtain ⟨-, -, -, -, -, hobjs⟩ := h
  rcases frameStart_objects t r1 r2 g with h0 | h1 | h2
  · rw [h0]; exact hobjs
  · rw [h1]
    intro o ho
    rcases List.mem_append.1 ho with ho | ho
    · exact hobjs o ho
    · rw [List.mem_singleton.1 ho]
      exact Or.inl rfl
  · rw [h2]
    intro o ho
    rcases List.mem_append.1 ho with ho | ho
    · exact hobjs o ho
    · rw [List.mem_singleton.1 ho]
      exact Or.inr ⟨rfl, rfl, rfl⟩

theorem grounded_gameLoop (t r1 r2 : ℚ) (g : Game) (h : Grounded g) :
    Grounded (gameLoop t r1 r2 g) := by
  cases hgo : g.gameOver
  · have hstart := grounded_frameStart t r1 r2 g h
    obtain ⟨hy, hh, hv, hj, ha, -⟩ := h
    obtain ⟨uy, uh, uv, uj⟩ := update_grounded g.player hy hh hv
    have hnone : ∀ o ∈ (frameStart t r1 r2 g).gameObjects,
        takesNote g.player.update.rect o = false := by
      intro o ho
      rw [← Bool.not_eq_true]
      intro htn
      simp only [takesNote, Bool.and_eq_true, decide_eq_true_eq] at htn
      rcases hstart o ho with hob | hn
      · exact htn.1.2 (by rw [update_type]; exact hob)
      · have := (noteShape_no_collision g.player.update.rect o uy hn).2
        rw [this] at htn
        exact Bool.noConfusion htn.1.1.2
    have hab := gameLoop_ability_of_no_note t r1 r2 g hgo hnone
    have hpl := gameLoop_player t r1 r2 g hgo
    refine ⟨?_, ?_, ?_, ?_, ?_, ?_⟩
    · rw [hpl]; exact uy
    · rw [hpl]; exact uh
    · rw [hpl]; exact uv
    · rw [hpl]; exact uj
    · rw [hab, update_ability]; exact ha
    · apply gameLoop_objects_forall (fun o => o.type = "obstacle" ∨ NoteShape o) _ t r1 r2 g hgo
        hstart
      intro o ho
      rcases ho with hob | hn
      · exact ⟨Or.inl (by rw [update_type]; exact hob), Or.inl (by
          show o.update.1.type = "obstacle"
          rw [update_type]; exact hob)⟩
      · exact ⟨Or.inr (noteShape_update o hn).1, Or.inr (noteShape_update o hn).2⟩
  · rw [gameLoop_of_gameOver t r1 r2 g hgo]
    exact h

theorem grounded_jump (g : Game) (h : Grounded g) : g.jump = g := by
  obtain ⟨-, -, -, -, ha, -⟩ := h
  have : g.player.jump = g.player := by
    unfold Player.jump
    simp [ha]
  unfold Game.jump
  rw [this]

theorem grounded_run (es : List Event) : ∀ g : Game, Grounded g → Grounded (run g es) := by
  induction es with
  | nil => intro g h; exact h
  | cons e es ih =>
    intro g h
    simp only [run, List.foldl_cons]
    apply ih
    cases e with
    | frame t r1 r2 => exact grounded_gameLoop t r1 r2 g h
    | jump =>
      show Grounded g.jump
      rw [grounded_jump g h]
      exact h

theorem grounded_initial : Grounded Game.initial := by
  refine ⟨by decide, by decide, by decide, by decide, by decide, ?_⟩
  intro o ho
  exact absurd ho (List.not_mem_nil o)

/-- C17. Pickups are unreachable. After any sequence of frames (whatever the timestamps and
the random draws) and jump inputs from the initial state, the player has ability 0, y = 470,
yVelocity 0 and is not jumping. In such a state every note of the array occupies the
vertical range from 440 to 465 while the player occupies the range from 470 to 500, so
`checkCollision` of the player and the note is false, before and after their updates;
`jump` changes nothing; and no frame consumes a note or grants an ability. -/
theorem pickups_unreachable :
    (∀ es : List Event,
      (run Game.initial es).player.ability = 0 ∧ (run Game.initial es).player.y = 470 ∧
      (run Game.initial es).player.yVelocity = 0 ∧
      (run Game.initial es).player.isJumping = false) ∧
    (∀ g : Game, Reachable g →
      g.player.ability = 0 ∧ g.player.y = 470 ∧ g.player.yVelocity = 0 ∧
      g.player.isJumping = false ∧ g.player.y + g.player.height = 500 ∧
      g.jump = g ∧
      (∀ o ∈ g.gameObjects, o.type = "note" →
        o.y = 440 ∧ o.y + o.height = 465 ∧
        checkCollision g.player.rect o.rect = false ∧
        checkCollision g.player.update.rect o.update.1.rect = false) ∧
      (∀ t r1 r2 : ℚ, ∀ o ∈ (frameStart t r1 r2 g).gameObjects,
        takesNote g.player.update.rect o = false) ∧
      (∀ t r1 r2 : ℚ, (gameLoop t r1 r2 g).player.ability = 0)) := by
  constructor
  · intro es
    obtain ⟨hy, -, hv, hj, ha, -⟩ := grounded_run es Game.initial grounded_initial
    exact ⟨ha, hy, hv, hj⟩
  · rintro g ⟨es, -, rfl⟩
    have hg := grounded_run es Game.initial grounded_initial
    have hg' := hg
    obtain ⟨hy, hh, hv, hj, ha, hobjs⟩ := hg'
    obtain ⟨uy, -, -, -⟩ := update_grounded _ hy hh hv
    refine ⟨ha, hy, hv, hj, by omega, grounded_jump _ hg, ?_, ?_, ?_⟩
    · intro o ho hn
      rcases hobjs o ho with hob | hs
      · rw [hob] at hn
        exact absurd hn (by decide)
      · have h1 := noteShape_no_collision (run Game.initial es).player.rect o hy hs
        have h2 := noteShape_no_collision (run Game.initial es).player.update.rect o uy hs
        obtain ⟨-, hoy, hoh⟩ := hs
        exact ⟨hoy, by omega, h1.1, h2.2⟩
    · intro t r1 r2 o ho
      rw [← Bool.not_eq_true]
      intro htn
      simp only [takesNote, Bool.and_eq_true, decide_eq_true_eq] at htn
      rcases grounded_frameStart t r1 r2 _ hg o ho with hob | hn
      · exact htn.1.2 (by rw [update_type]; exact hob)
      · have := (noteShape_no_collision (run Game.initial es).player.update.rect o uy hn).2
        rw [this] at htn
        exact Bool.noConfusion htn.1.1.2
    · intro t r1 r2
      exact (grounded_gameLoop t r1 r2 _ hg).2.2.2.2.1

/-! ## No obstacle in front of the player is survived -/

theorem update_running (p : Player) (hx : 100 ≤ p.x) (hv : p.xVelocity = 3) :
    p.update.x = p.x + 3 ∧ p.update.width = p.width ∧ p.update.xVelocity = 3 := by
  unfold Player.update
  simp only [hv]
  split_ifs <;> simp <;> omega

theorem gained_eq_zero (r : Rect) (xs : List GameObject)
    (h : ∀ o ∈ xs, scoresNow r o = false) : gained r xs = 0 := by
  unfold gained
  have : xs.filter (scoresNow r) = [] := by
    rw [List.filter_eq_nil_iff]
    intro o ho
    simp [h o ho]
  rw [this]
  rfl

/-- In a frame whose player, after the update, has not passed x = 800, every obstacle of the
array after spawning either is still in front of the player after its update or collides
with the player. -/
theorem ahead_or_collides (t r1 r2 : ℚ) (g : Game) (hr2 : 0 ≤ r2) (h : Ahead g)
    (hrun : g.gameOver = false) (hle : g.player.x + 3 ≤ 800) :
    ∀ e ∈ (frameStart t r1 r2 g).gameObjects, e.type = "obstacle" →
      ObstacleShape e ∧
      (g.player.x + 3 + 30 ≤ e.x - 5 ∨ checkCollision g.player.update.rect e.update.1.rect = true) := by
  obtain ⟨hgr, hw, hv, hx, hfront⟩ := h
  obtain ⟨hy, hh, hyv, -, -, -⟩ := hgr
  obtain ⟨ux, uw, -⟩ := update_running g.player hx hv
  obtain ⟨uy, uh, -, -⟩ := update_grounded g.player hy hh hyv
  have hold := (hfront (by omega)).2 hrun
  have key : ∀ e : GameObject, ObstacleShape e → (g.player.x + 30 ≤ e.x ∨ e.x = 800) →
      ObstacleShape e ∧
      (g.player.x + 3 + 30 ≤ e.x - 5 ∨
        checkCollision g.player.update.rect e.update.1.rect = true) := by
    intro e hs hpos
    refine ⟨hs, ?_⟩
    obtain ⟨ey, eh, ew⟩ := hs
    by_cases hfar : g.player.x + 3 + 30 ≤ e.x - 5
    · exact Or.inl hfar
    · right
      rw [checkCollision_iff, update_fst]
      simp only [GameObject.rect, Player.rect, OBSTACLE_SPEED, ux, uw, uy, uh, hw]
      omega
  intro e he hob
  rcases frameStart_objects t r1 r2 g with h0 | h1 | h2
  · rw [h0] at he
    obtain ⟨hs, hpos⟩ := hold e he hob
    exact key e hs (Or.inl hpos)
  · rw [h1] at he
    rcases List.mem_append.1 he with he | he
    · obtain ⟨hs, hpos⟩ := hold e he hob
      exact key e hs (Or.inl hpos)
    · rw [List.mem_singleton.1 he]
      have hfl := floor_roundDouble_mul_sixty_nonneg r2 hr2
      exact key _ ⟨rfl, rfl, by
        show (40 : Int) ≤ Int.floor (roundDouble (r2 * 60)) + 40
        omega⟩ (Or.inr rfl)
  · rw [h2] at he
    rcases List.mem_append.1 he with he | he
    · obtain ⟨hs, hpos⟩ := hold e he hob
      exact key e hs (Or.inl hpos)
    · rw [List.mem_singleton.1 he] at hob
      have hne : ("note" : String) = "obstacle" := hob
      exact absurd hne (by decide)

theorem ahead_gameLoop (t r1 r2 : ℚ) (g : Game) (hr2 : 0 ≤ r2) (h : Ahead g) :
    Ahead (gameLoop t r1 r2 g) := by
  cases hrun : g.gameOver
  · have hA := h
    obtain ⟨hgr, hw, hv, hx, hfront⟩ := hA
    obtain ⟨ux, uw, uv⟩ := update_running g.player hx hv
    have hpl := gameLoop_player t r1 r2 g hrun
    have hp := frameStart_player t r1 r2 g
    have hrx : 0 ≤ g.player.update.rect.x := (update_floor g.player).2.1
    have hpx : (gameLoop t r1 r2 g).player.x = g.player.x + 3 := by rw [hpl]; exact ux
    refine ⟨grounded_gameLoop t r1 r2 g hgr, ?_, ?_, ?_, ?_⟩
    · rw [hpl]; show g.player.update.width = 30; rw [uw]; exact hw
    · rw [hpl]; exact uv
    · rw [hpx]; omega
    · intro hle
      rw [hpx] at hle
      have hA' := ahead_or_collides t r1 r2 g hr2 h hrun hle
      have hscore0 := (hfront (by omega)).1
      have hnoScore : ∀ e ∈ (frameStart t r1 r2 g).gameObjects,
          scoresNow g.player.update.rect e = false := by
        intro e he
        rw [← Bool.not_eq_true]
        intro hs
        simp only [scoresNow, Bool.and_eq_true, decide_eq_true_eq] at hs
        obtain ⟨⟨⟨-, ht⟩, hlt⟩, -⟩ := hs
        rw [update_type] at ht
        obtain ⟨⟨-, -, ew⟩, hcase⟩ := hA' e he ht
        rw [update_fst] at hlt
        simp only [OBSTACLE_SPEED] at hlt
        have hrx' : g.player.update.rect.x = g.player.x + 3 := ux
        rw [hrx'] at hlt
        rcases hcase with hfar | hcol
        · omega
        · rw [checkCollision_iff, update_fst] at hcol
          simp only [GameObject.rect, OBSTACLE_SPEED, hrx'] at hcol
          omega
      rcases noHit_or_lastHit (frameStart t r1 r2 g).player.rect
        (frameStart t r1 r2 g).gameObjects with hno | ⟨pre, o, post, hsplit, ho, hno⟩
      · rw [gameLoop_noHit t r1 r2 g hrun hno]
        simp only [hp]
        refine ⟨?_, ?_⟩
        · rw [gained_eq_zero _ _ hnoScore, hscore0]
          rfl
        · intro _ a ha hta
          obtain ⟨b, hb, -, rfl⟩ := mem_survivors _ _ a ha
          have htb : b.type = "obstacle" := by
            rcases settled_cases g.player.update.rect b with hs | hs
            · rw [hs, update_type] at hta; exact hta
            · rw [hs] at hta
              have : b.update.1.type = "obstacle" := hta
              rw [update_type] at this; exact this
          obtain ⟨⟨by', bh, bw⟩, hcase⟩ := hA' b hb htb
          have hnocol : ¬ (checkCollision g.player.update.rect b.update.1.rect = true) := by
            intro hc
            have := (hitsObstacle_iff _ b hrx).2 ⟨hc, htb⟩
            rw [hp] at hno
            rw [hno b hb] at this
            exact Bool.noConfusion this
          have hfar : g.player.x + 3 + 30 ≤ b.x - 5 := by
            rcases hcase with hfar | hcol
            · exact hfar
            · exact absurd hcol hnocol
          rcases settled_cases g.player.update.rect b with hs | hs
          · rw [hs, update_fst]
            exact ⟨⟨by', bh, bw⟩, by simp only [OBSTACLE_SPEED]; omega⟩
          · rw [hs, update_fst]
            exact ⟨⟨by', bh, bw⟩, by simp only [OBSTACLE_SPEED]; omega⟩
      · rw [gameLoop_hit t r1 r2 g hrun pre post o hsplit ho hno]
        simp only [hp]
        refine ⟨?_, ?_⟩
        · rw [gained_eq_zero _ _ (fun e he => hnoScore e (by simp [hsplit, he])), hscore0]
          rfl
        · intro hfalse
          exact Bool.noConfusion hfalse
  · rw [gameLoop_of_gameOver t r1 r2 g hrun]
    exact h

theorem ahead_initial : Ahead Game.initial := by
  refine ⟨grounded_initial, by decide, by decide, by decide, ?_⟩
  intro _
  refine ⟨rfl, ?_⟩
  intro _ o ho
  exact absurd ho (List.not_mem_nil o)

theorem ahead_step (g : Game) (e : Event) (hv : e.valid) (h : Ahead g) : Ahead (step g e) := by
  cases e with
  | frame t r1 r2 => exact ahead_gameLoop t r1 r2 g hv.2.2.1 h
  | jump =>
    show Ahead g.jump
    rw [grounded_jump g h.1]
    exact h

/-- C18. No obstacle in front of the player is ever survived. In every reachable state a
positive score implies that the player has run past the right edge of the world
(`Player.x > 800`). As long as the player has not passed x = 800, every obstacle of the array
after spawning either is still in front of the player after its update or collides with
the player in that frame, which ends the game before the obstacle can be scored; so the
score stays 0 until then. -/
theorem score_needs_passing_world_edge :
    (∀ g : Game, Reachable g → 0 < g.score → GAME_WIDTH < g.player.x) ∧
    (∀ g : Game, Reachable g → g.player.x ≤ 800 → g.score = 0) ∧
    (∀ g : Game, Reachable g → g.gameOver = false → g.player.x + 3 ≤ 800 →
      ∀ (t r1 r2 : ℚ), 0 ≤ r2 →
        ∀ e ∈ (frameStart t r1 r2 g).gameObjects, e.type = "obstacle" →
          40 ≤ e.width ∧
          (g.player.update.x + g.player.update.width ≤ e.update.1.x ∨
            checkCollision g.player.update.rect e.update.1.rect = true)) := by
  have hall : ∀ g : Game, Reachable g → Ahead g :=
    reachable_induction Ahead ahead_initial ahead_step
  refine ⟨?_, ?_, ?_⟩
  · intro g hg hpos
    by_contra hnot
    have hle : g.player.x ≤ 800 := by
      simp only [GAME_WIDTH] at hnot
      omega
    have := ((hall g hg).2.2.2.2 hle).1
    omega
  · intro g hg hle
    exact ((hall g hg).2.2.2.2 hle).1
  · intro g hg hrun hle t r1 r2 hr2 e he hob
    have hA := hall g hg
    obtain ⟨hs, hcase⟩ := ahead_or_collides t r1 r2 g hr2 hA hrun hle e he hob
    obtain ⟨ux, uw, -⟩ := update_running g.player hA.2.2.2.1 hA.2.2.1
    refine ⟨hs.2.2, ?_⟩
    rcases hcase with hfar | hcol
    · left
      rw [ux, uw, hA.2.1, update_fst]
      simp only [OBSTACLE_SPEED]
      omega
    · exact Or.inr hcol

/-! ## Flight of a jump -/

theorem player_afterUpdates_succ (k : Nat) (p : Player) :
    p.afterUpdates (k + 1) = (p.afterUpdates k).update := by
  unfold Player.afterUpdates
  rw [Function.iterate_succ_apply']

/-- The vertical part after an update depends on the vertical part before it alone. -/
theorem vertical_update (p q : Player) (h : p.vertical = q.vertical) :
    p.update.vertical = q.update.vertical := by
  simp only [Player.vertical, Prod.mk.injEq] at h
  obtain ⟨h1, h2, h3, h4⟩ := h
  unfold Player.update Player.vertical
  simp only [h1, h2, h3]
  split_ifs <;> simp [h4]

theorem vertical_afterUpdates (k : Nat) (p q : Player) (h : p.vertical = q.vertical) :
    (p.afterUpdates k).vertical = (q.afterUpdates k).vertical := by
  induction k with
  | zero => exact h
  | succ k ih =>
    rw [player_afterUpdates_succ, player_afterUpdates_succ]
    exact vertical_update _ _ ih

/-- Once on the floor at rest, the player stays there. -/
theorem afterUpdates_rest (k : Nat) (p : Player) (hy : p.y = 470) (hh : p.height = 30)
    (hv : p.yVelocity = 0) (hj : p.isJumping = false) :
    (p.afterUpdates k).vertical = (470, 0, 30, false) := by
  induction k with
  | zero => simp [Player.afterUpdates, Player.vertical, hy, hh, hv, hj]
  | succ k ih =>
    rw [player_afterUpdates_succ]
    simp only [Player.vertical, Prod.mk.injEq] at ih
    obtain ⟨h1, h2, h3, -⟩ := ih
    obtain ⟨u1, u2, u3, u4⟩ := update_grounded _ h1 h3 h2
    simp [Player.vertical, u1, u2, u3, u4]

theorem afterUpdates_add (j k : Nat) (p : Player) :
    p.afterUpdates (j + k) = (p.afterUpdates k).afterUpdates j := by
  unfold Player.afterUpdates
  rw [Function.iterate_add_apply]

theorem flight_short_table :
    ∀ k : Nat, k ≤ 34 →
      (Player.afterUpdates k ⟨0, 470, 0, 30, 0, -18, true, 0⟩).vertical =
        (470 - 18 * (k : Int) + (k : Int) * ((k : Int) + 1) / 2, -18 + (k : Int), 30, true) := by
  intro k hk
  interval_cases k <;> rfl

set_option maxRecDepth 20000 in
theorem flight_short_landing :
    (Player.afterUpdates 35 ⟨0, 470, 0, 30, 0, -18, true, 0⟩).vertical = (470, 0, 30, false) := by
  rfl

theorem flight_long_table :
    ∀ k : Nat, k ≤ 48 →
      (Player.afterUpdates k ⟨0, 470, 0, 30, 0, -25, true, 0⟩).vertical =
        (470 - 25 * (k : Int) + (k : Int) * ((k : Int) + 1) / 2, -25 + (k : Int), 30, true) := by
  intro k hk
  interval_cases k <;> rfl

set_option maxRecDepth 20000 in
theorem flight_long_landing :
    (Player.afterUpdates 49 ⟨0, 470, 0, 30, 0, -25, true, 0⟩).vertical = (470, 0, 30, false) := by
  rfl

theorem flight_short_bounds :
    ∀ k : Nat, k ≤ 34 →
      317 ≤ 470 - 18 * (k : Int) + (k : Int) * ((k : Int) + 1) / 2 ∧
      (1 ≤ k → 470 - 18 * (k : Int) + (k : Int) * ((k : Int) + 1) / 2 + 30 < 500) := by
  intro k hk
  interval_cases k <;> decide

theorem flight_long_bounds :
    ∀ k : Nat, k ≤ 48 →
      170 ≤ 470 - 25 * (k : Int) + (k : Int) * ((k : Int) + 1) / 2 ∧
      (1 ≤ k → 470 - 25 * (k : Int) + (k : Int) * ((k : Int) + 1) / 2 + 30 < 500) := by
  intro k hk
  interval_cases k <;> decide

theorem jump_vertical (p : Player) (hj : p.isJumping = false) :
    (p.ability = 1 → p.jump.vertical = (p.y, -18, p.height, true)) ∧
    (p.ability = 2 → p.jump.vertical = (p.y, -25, p.height, true)) := by
  constructor
  · intro ha
    simp [Player.jump, Player.vertical, hj, ha, shortJumpPower]
  · intro ha
    simp [Player.jump, Player.vertical, hj, ha, longJumpPower]

/-- The flight that starts with vertical state `(470, -P, 30, true)`, when it is known
step by step up to the landing on call `n + 1`. -/
theorem flight_of_table (q c : Player) (P : Int) (n : Nat) (m : Int)
    (hq : q.vertical = c.vertical)
    (htable : ∀ k : Nat, k ≤ n →
      (c.afterUpdates k).vertical =
        (470 - P * (k : Int) + (k : Int) * ((k : Int) + 1) / 2, -P + (k : Int), 30, true))
    (hland : (c.afterUpdates (n + 1)).vertical = (470, 0, 30, false))
    (hbounds : ∀ k : Nat, k ≤ n →
      m ≤ 470 - P * (k : Int) + (k : Int) * ((k : Int) + 1) / 2 ∧
      (1 ≤ k → 470 - P * (k : Int) + (k : Int) * ((k : Int) + 1) / 2 + 30 < 500))
    (hm : m ≤ 470) :
    (∀ k : Nat, k ≤ n →
      (q.afterUpdates k).y = 470 - P * (k : Int) + (k : Int) * ((k : Int) + 1) / 2 ∧
      (q.afterUpdates k).isJumping = true ∧
      (1 ≤ k → (q.afterUpdates k).y + (q.afterUpdates k).height < FLOOR_Y)) ∧
    ((q.afterUpdates (n + 1)).y = 470 ∧ (q.afterUpdates (n + 1)).yVelocity = 0 ∧
      (q.afterUpdates (n + 1)).isJumping = false) ∧
    (∀ k : Nat, m ≤ (q.afterUpdates k).y) := by
  have hv : ∀ k, (q.afterUpdates k).vertical = (c.afterUpdates k).vertical :=
    fun k => vertical_afterUpdates k q c hq
  have hfl : ∀ k : Nat, k ≤ n →
      (q.afterUpdates k).y = 470 - P * (k : Int) + (k : Int) * ((k : Int) + 1) / 2 ∧
      (q.afterUpdates k).height = 30 ∧ (q.afterUpdates k).isJumping = true := by
    intro k hk
    have := (hv k).trans (htable k hk)
    simp only [Player.vertical, Prod.mk.injEq] at this
    exact ⟨this.1, this.2.2.1, this.2.2.2⟩
  have hl := (hv (n + 1)).trans hland
  simp only [Player.vertical, Prod.mk.injEq] at hl
  refine ⟨?_, ⟨hl.1, hl.2.1, hl.2.2.2⟩, ?_⟩
  · intro k hk
    obtain ⟨h1, h2, h3⟩ := hfl k hk
    refine ⟨h1, h3, ?_⟩
    intro hk1
    rw [h1, h2]
    exact (hbounds k hk).2 hk1
  · intro k
    by_cases hk : k ≤ n
    · rw [(hfl k hk).1]
      exact (hbounds k hk).1
    · obtain ⟨j, rfl⟩ : ∃ j, k = j + (n + 1) := ⟨k - (n + 1), by omega⟩
      rw [afterUpdates_add]
      have := afterUpdates_rest j (q.afterUpdates (n + 1)) hl.1 hl.2.2.1 hl.2.1 hl.2.2.2
      simp only [Player.vertical, Prod.mk.injEq] at this
      rw [this.1]
      exact hm

/-- C19. Every jump lands, after a fixed number of frames. For a player on the floor
(y = 470, height 30) immediately after a successful `jump`, with no further input: after a
short jump (ability 1, `yVelocity = -18`) the player is airborne with `isJumping = true`
after each of the next 34 calls of `Player.update` and lands (y = 470, `yVelocity = 0`,
`isJumping = false`) on exactly the 35th, reaching a minimum y of 317; after a long jump
(ability 2, `yVelocity = -25`) the player lands on exactly the 49th call, reaching a minimum
y of 170. In flight, after `k` updates, `y = 470 - p*k + k(k+1)/2` with `p` 18 or 25, and y
is never negative. -/
theorem jump_flight (p : Player) (hy : p.y = 470) (hh : p.height = 30)
    (hj : p.isJumping = false) :
    (p.ability = 1 →
      p.jump.yVelocity = -18 ∧
      (∀ k : Nat, k ≤ 34 →
        (p.jump.afterUpdates k).y = 470 - 18 * (k : Int) + (k : Int) * ((k : Int) + 1) / 2 ∧
        (p.jump.afterUpdates k).isJumping = true ∧
        (1 ≤ k → (p.jump.afterUpdates k).y + (p.jump.afterUpdates k).height < FLOOR_Y)) ∧
      ((p.jump.afterUpdates 35).y = 470 ∧ (p.jump.afterUpdates 35).yVelocity = 0 ∧
        (p.jump.afterUpdates 35).isJumping = false) ∧
      (∀ k : Nat, 317 ≤ (p.jump.afterUpdates k).y) ∧
      (p.jump.afterUpdates 18).y = 317 ∧
      (∀ k : Nat, 0 ≤ (p.jump.afterUpdates k).y)) ∧
    (p.ability = 2 →
      p.jump.yVelocity = -25 ∧
      (∀ k : Nat, k ≤ 48 →
        (p.jump.afterUpdates k).y = 470 - 25 * (k : Int) + (k : Int) * ((k : Int) + 1) / 2 ∧
        (p.jump.afterUpdates k).isJumping = true ∧
        (1 ≤ k → (p.jump.afterUpdates k).y + (p.jump.afterUpdates k).height < FLOOR_Y)) ∧
      ((p.jump.afterUpdates 49).y = 470 ∧ (p.jump.afterUpdates 49).yVelocity = 0 ∧
        (p.jump.afterUpdates 49).isJumping = false) ∧
      (∀ k : Nat, 170 ≤ (p.jump.afterUpdates k).y) ∧
      (p.jump.afterUpdates 25).y = 170 ∧
      (∀ k : Nat, 0 ≤ (p.jump.afterUpdates k).y)) := by
  constructor
  · intro ha
    have hq : p.jump.vertical = (Player.vertical ⟨0, 470, 0, 30, 0, -18, true, 0⟩) := by
      rw [(jump_vertical p hj).1 ha, hy, hh]
      rfl
    have hv : p.jump.yVelocity = -18 := by
      have := congrArg (fun v => v.2.1) hq
      exact this
    obtain ⟨h1, h2, h3⟩ := flight_of_table p.jump _ 18 34 317 hq flight_short_table
      flight_short_landing flight_short_bounds (by decide)
    refine ⟨hv, h1, h2, h3, ?_, fun k => Int.le_trans (by decide) (h3 k)⟩
    rw [(h1 18 (by decide)).1]
    decide
  · intro ha
    have hq : p.jump.vertical = (Player.vertical ⟨0, 470, 0, 30, 0, -25, true, 0⟩) := by
      rw [(jump_vertical p hj).2 ha, hy, hh]
      rfl
    have hv : p.jump.yVelocity = -25 := by
      have := congrArg (fun v => v.2.1) hq
      exact this
    obtain ⟨h1, h2, h3⟩ := flight_of_table p.jump _ 25 48 170 hq flight_long_table
      flight_long_landing flight_long_bounds (by decide)
    refine ⟨hv, h1, h2, h3, ?_, fun k => Int.le_trans (by decide) (h3 k)⟩
    rw [(h1 25 (by decide)).1]
    decide

theorem jump_flight_witness :
    shortJumpStart.jump.yVelocity = -18 ∧
      (∀ k : Nat, k ≤ 34 →
        (shortJumpStart.jump.afterUpdates k).y =
          470 - 18 * (k : Int) + (k : Int) * ((k : Int) + 1) / 2 ∧
        (shortJumpStart.jump.afterUpdates k).isJumping = true ∧
        (1 ≤ k → (shortJumpStart.jump.afterUpdates k).y +
          (shortJumpStart.jump.afterUpdates k).height < FLOOR_Y)) ∧
      ((shortJumpStart.jump.afterUpdates 35).y = 470 ∧
        (shortJumpStart.jump.afterUpdates 35).yVelocity = 0 ∧
        (shortJumpStart.jump.afterUpdates 35).isJumping = false) ∧
      (∀ k : Nat, 317 ≤ (shortJumpStart.jump.afterUpdates k).y) ∧
      (shortJumpStart.jump.afterUpdates 18).y = 317 ∧
      (∀ k : Nat, 0 ≤ (shortJumpStart.jump.afterUpdates k).y) :=
  (jump_flight shortJumpStart rfl rfl rfl).1 rfl

end Game1
